import Mathlib

/-!
Shallow embedding of the APES orchestration engine (JavaScript source) in Lean 4.

Numeric values computed by the JavaScript engine are modelled by exact rationals
(`ℚ`).  At every concrete input used below the JavaScript double-precision
computation and the rational computation agree (the constants involved are small
decimal fractions and the comparisons are never decided by a rounding error;
where a boundary value occurs, e.g. the complexity score 7.0 of claim C4, the
IEEE-754 evaluation was checked by hand to produce exactly the same value).

Statuses, levels and strategies are kept as the literal strings used by the
source.  JavaScript `Map`s are modelled as association lists in insertion
order, JavaScript `Set`s as duplicate-free lists in insertion order.
-/

namespace APES

/-! ## Basic JavaScript helpers -/

/-- The JavaScript whitespace class (`\s`, also the set trimmed by
`String.prototype.trim`). -/
def jsWs (c : Char) : Bool :=
  let n := c.toNat
  (9 ≤ n && n ≤ 13) || n = 32 || n = 0xa0 || n = 0x1680 ||
  (0x2000 ≤ n && n ≤ 0x200a) || n = 0x2028 || n = 0x2029 ||
  n = 0x202f || n = 0x205f || n = 0x3000 || n = 0xfeff

/-- JavaScript `String.prototype.trim` on a character list. -/
def trimChars (cs : List Char) : List Char :=
  ((cs.dropWhile jsWs).reverse.dropWhile jsWs).reverse

/-- JavaScript `String.prototype.toLowerCase` (ASCII fragment, which is all the
source ever relies on). -/
def toLowerChars (cs : List Char) : List Char :=
  cs.map Char.toLower

/-- Contiguous-substring test: does `needle` occur inside `hay`? -/
def infixOfChars (needle : List Char) : List Char → Bool
  | [] => needle.isPrefixOf []
  | c :: cs => needle.isPrefixOf (c :: cs) || infixOfChars needle cs

/-- JavaScript `hay.includes(needle)`: contiguous-substring test. -/
def includesChars (hay needle : List Char) : Bool :=
  infixOfChars needle hay

/-- JavaScript word character (`\w`): ASCII letters, digits, underscore. -/
def isWordChar (c : Char) : Bool :=
  c.isAlphanum || c = '_'

/-- JavaScript `Math.round`: round half toward positive infinity. -/
def mathRound (q : ℚ) : ℤ :=
  ⌊q + 1/2⌋

/-- Insertion into a JavaScript `Set` modelled as a duplicate-free list in
insertion order. -/
def addToSet (l : List String) (x : String) : List String :=
  if l.contains x then l else l ++ [x]

/-! ## Agent registry (source: agents/registry.js)

`AgentRegistry` holds a `Map` from agent id to agent record; we model it as the
list of agent records in registration order (the cluster records only repeat
the membership information and are not needed by any claim). -/

structure Agent where
  id : String
  role : String
  cluster : String
  skills : List String
  complexitySupported : List String
  confidenceScore : ℚ
  avgExecutionTime : ℚ
  totalExecutions : Nat
  failureRate : ℚ
  deriving DecidableEq, Repr

/-- One `registerAgent` call: the record is extended with the zeroed metric
fields. -/
def registerAgent (id role cluster : String) (skills complexitySupported : List String)
    (confidenceScore avgExecutionTime : ℚ) : Agent :=
  { id := id, role := role, cluster := cluster, skills := skills,
    complexitySupported := complexitySupported, confidenceScore := confidenceScore,
    avgExecutionTime := avgExecutionTime, totalExecutions := 0, failureRate := 0 }

/-- The agents registered by `initializeDefaults`, in registration order. -/
def initialAgents : List Agent :=
  [ registerAgent "researcher_v1" "research_analyst" "research"
      ["web-search", "documentation", "summarization", "comparison"]
      ["simple", "medium", "complex"] (85/100) 2,
    registerAgent "planner_v1" "architect" "research"
      ["architecture", "planning", "decomposition", "roadmap"]
      ["medium", "complex"] (80/100) 3,
    registerAgent "code_agent_v2" "backend_engineer" "coding"
      ["nodejs", "api", "database", "typescript", "python"]
      ["simple", "medium", "complex"] (87/100) (34/10),
    registerAgent "code_reviewer_v1" "code_reviewer" "coding"
      ["review", "security-audit", "best-practices", "optimization"]
      ["medium", "complex"] (82/100) (21/10),
    registerAgent "debugger_v1" "debugger" "coding"
      ["debugging", "error-trace", "fix", "testing"]
      ["simple", "medium", "complex"] (79/100) (28/10),
    registerAgent "devops_agent_v1" "devops_engineer" "devops"
      ["docker", "kubernetes", "ci-cd", "cloud", "monitoring"]
      ["medium", "complex"] (81/100) (42/10),
    registerAgent "infra_agent_v1" "infrastructure_engineer" "devops"
      ["aws", "terraform", "networking", "security", "scaling"]
      ["complex"] (76/100) 5,
    registerAgent "frontend_agent_v1" "frontend_engineer" "uiux"
      ["react", "css", "html", "javascript", "responsive-design"]
      ["simple", "medium", "complex"] (84/100) 3,
    registerAgent "designer_agent_v1" "ux_designer" "uiux"
      ["wireframe", "mockup", "color-theory", "accessibility", "layout"]
      ["simple", "medium"] (78/100) (25/10),
    registerAgent "test_agent_v1" "test_engineer" "analysis"
      ["unit-testing", "integration-testing", "e2e", "coverage"]
      ["simple", "medium", "complex"] (83/100) (25/10),
    registerAgent "performance_agent_v1" "performance_analyst" "analysis"
      ["profiling", "benchmark", "optimization", "bottleneck-analysis"]
      ["medium", "complex"] (80/100) 4,
    registerAgent "evaluator_agent_v1" "meta_evaluator" "evaluation"
      ["quality-check", "cross-validation", "consistency-check"]
      ["medium", "complex"] (85/100) (15/10) ]

/-- Registry state: the agent records in insertion order. -/
abbrev Registry := List Agent

/-- Criteria record taken by `findAgents`. -/
structure Criteria where
  cluster : Option String := none
  skills : Option (List String) := none
  complexity : Option String := none

/-- `findAgents`: filter by cluster equality, any-skill overlap and supported
complexity, then sort by descending `confidenceScore`.  JavaScript `sort` is
stable; `insertionSort` with the reflexive relation `b.conf ≤ a.conf` is the
same stable descending sort. -/
def findAgents (reg : Registry) (c : Criteria) : List Agent :=
  let step1 : List Agent := match c.cluster with
    | some cl => reg.filter (fun a => a.cluster = cl)
    | none => reg
  let step2 : List Agent := match c.skills with
    | some sk => if sk.length > 0 then
        step1.filter (fun a => sk.any (fun s => a.skills.contains s)) else step1
    | none => step1
  let step3 : List Agent := match c.complexity with
    | some cx => step2.filter (fun a => a.complexitySupported.contains cx)
    | none => step2
  step3.insertionSort (fun a b => b.confidenceScore ≤ a.confidenceScore)

/-- The metric/confidence update `updateAgentMetrics` performs on the one agent
record it finds.  Note the source updates `avgExecutionTime` first and then
compares `duration` against the already-updated average. -/
def updateAgentRecord (a : Agent) (duration : ℚ) (failed : Bool) : Agent :=
  let alpha : ℚ := 3/10
  let newAvg := a.avgExecutionTime * (1 - alpha) + duration * alpha
  let newFailureRate :=
    if failed then a.failureRate * (1 - alpha) + alpha
    else a.failureRate * (1 - alpha)
  let newConfidence :=
    if !failed && duration < newAvg then min 1 (a.confidenceScore + 2/100)
    else if failed then max (1/10) (a.confidenceScore - 5/100)
    else a.confidenceScore
  { a with totalExecutions := a.totalExecutions + 1,
           avgExecutionTime := newAvg,
           failureRate := newFailureRate,
           confidenceScore := newConfidence }

/-- `updateAgentMetrics agentId metrics` on the registry: a no-op when the id
is absent, otherwise the in-place update of the matching record. -/
def updateAgentMetrics (reg : Registry) (agentId : String) (duration : ℚ)
    (failed : Bool) : Registry :=
  reg.map (fun a => if a.id = agentId then updateAgentRecord a duration failed else a)

/-! ## Learning-system confidence updates (source: learning-system.js) -/

/-- Rounding to three decimals, `Math.round(x * 1000) / 1000`. -/
def roundTo3 (q : ℚ) : ℚ :=
  (mathRound (q * 1000) : ℚ) / 1000

/-- One queued delta applied by `applyUpdates`: clamp to `[0.1, 1.0]`, round to
three decimals.  Absent agent ids are skipped. -/
def applyOneUpdate (reg : Registry) (u : String × ℚ) : Registry :=
  reg.map (fun a =>
    if a.id = u.1 then
      { a with confidenceScore := roundTo3 (max (1/10) (min 1 (a.confidenceScore + u.2))) }
    else a)

/-- `applyUpdates`: consume the whole queue in order. -/
def applyUpdates (reg : Registry) (queue : List (String × ℚ)) : Registry :=
  queue.foldl applyOneUpdate reg

/-- A confidence-mutating operation on the registry, for stating the C6
invariant: either a direct `updateAgentMetrics` call or an `applyUpdates` call
with an arbitrary queue of deltas. -/
inductive RegistryOp where
  | metrics (agentId : String) (duration : ℚ) (failed : Bool)
  | apply (queue : List (String × ℚ))

def runRegistryOp (reg : Registry) : RegistryOp → Registry
  | .metrics id d f => updateAgentMetrics reg id d f
  | .apply q => applyUpdates reg q

def runRegistryOps (reg : Registry) (ops : List RegistryOp) : Registry :=
  ops.foldl runRegistryOp reg

/-! ## Performance log (source: memory-system.js, `recordPerformance`) -/

/-- `recordPerformance`: append, then on overflow keep the newest 500 entries
(`slice(-500)`). -/
def recordPerformance {α : Type} (log : List α) (e : α) : List α :=
  let l := log ++ [e]
  if l.length > 1000 then l.drop (l.length - 500) else l

/-! ## Worker pool (source: execution/worker-pool.js)

The pool is modelled as a labelled transition system.  A `submit` is the prefix
of `execute` up to and including `activeWorkers++` (when a slot is free) or the
enqueue inside `waitForSlot` (when the pool is saturated).  A `finish` is the
`finally` block of `execute`: `activeWorkers--` followed by `processQueue`,
which wakes at most the front waiter; under the JavaScript event loop the woken
waiter continues `execute` (its `activeWorkers++`) before any other submission
can run, so wake-up and increment form one atomic step here.  Waiter identities
are abstract numbers; `enqueuedLog`/`resumedLog` record enqueue and resume
order for the FIFO statement. -/

structure PoolState where
  maxWorkers : Nat
  activeWorkers : Nat
  queue : List Nat
  enqueuedLog : List Nat
  resumedLog : List Nat
  deriving Repr

/-- The constructor `new WorkerPool(maxWorkers = 8)`. -/
def poolInit (maxWorkers : Nat := 8) : PoolState :=
  { maxWorkers := maxWorkers, activeWorkers := 0, queue := [],
    enqueuedLog := [], resumedLog := [] }

inductive PoolOp where
  | submit (w : Nat)
  | finish

def poolStep (s : PoolState) : PoolOp → PoolState
  | .submit w =>
      if s.activeWorkers ≥ s.maxWorkers then
        { s with queue := s.queue ++ [w], enqueuedLog := s.enqueuedLog ++ [w] }
      else
        { s with activeWorkers := s.activeWorkers + 1 }
  | .finish =>
      if s.activeWorkers = 0 then s
      else
        -- `activeWorkers--` then `processQueue`: the intermediate state is
        -- inlined, so the guard reads `s.activeWorkers - 1` and the `shift`
        -- of a non-empty queue is `take 1` / `tail`
        if s.queue.length > 0 ∧ s.activeWorkers - 1 < s.maxWorkers then
          { s with activeWorkers := s.activeWorkers - 1 + 1, queue := s.queue.tail,
                   resumedLog := s.resumedLog ++ s.queue.take 1 }
        else { s with activeWorkers := s.activeWorkers - 1 }

def runPool (s : PoolState) (ops : List PoolOp) : PoolState :=
  ops.foldl poolStep s

/-! ## Intent classifier (source: orchestration/intent-classifier.js) -/

structure IntentPattern where
  type : String
  keywords : List String
  cluster : String
  priority : String

/-- The six built-in intent patterns, in registration order. -/
def intentPatterns : List IntentPattern :=
  [ { type := "code",
      keywords := ["build", "create", "implement", "code", "write", "develop",
        "function", "class", "api", "endpoint", "component", "module",
        "refactor", "fix", "bug", "debug"],
      cluster := "coding", priority := "high" },
    { type := "research",
      keywords := ["research", "find", "search", "look up", "investigate",
        "analyze", "compare", "what is", "how does", "explain", "understand"],
      cluster := "research", priority := "medium" },
    { type := "devops",
      keywords := ["deploy", "docker", "kubernetes", "ci/cd", "pipeline",
        "server", "cloud", "aws", "infrastructure", "monitor", "scale",
        "container"],
      cluster := "devops", priority := "high" },
    { type := "design",
      keywords := ["design", "ui", "ux", "layout", "style", "theme", "color",
        "responsive", "animation", "interface", "mockup", "wireframe"],
      cluster := "uiux", priority := "medium" },
    { type := "analysis",
      keywords := ["analyze", "evaluate", "report", "metrics", "performance",
        "benchmark", "test", "audit", "review", "optimize", "profile"],
      cluster := "analysis", priority := "medium" },
    { type := "planning",
      keywords := ["plan", "architecture", "design system", "roadmap",
        "strategy", "structure", "organize", "breakdown", "decompose"],
      cluster := "research", priority := "low" } ]

structure SecIntent where
  type : String
  confidence : ℚ
  deriving DecidableEq, Repr

/-- The record shape `classify` returns.  The fallback record for zero matches
carries no `priority` property, hence the `Option`. -/
structure Intent where
  type : String
  cluster : String
  priority : Option String
  confidence : ℚ
  matched : List String
  secondary : List SecIntent
  deriving DecidableEq, Repr

/-- One score entry pushed by the classifier loop. -/
structure ScoreEntry where
  type : String
  cluster : String
  priority : String
  confidence : ℚ
  matched : List String
  deriving DecidableEq, Repr

/-- The score-building loop of `classify`: one entry per pattern with at
least one keyword occurring as a substring of the lowercased input. -/
def classifyScores (inputLower : List Char) : List ScoreEntry :=
  intentPatterns.filterMap (fun p =>
    let matched := p.keywords.filter (fun kw => includesChars inputLower kw.toList)
    if matched.length > 0 then
      some { type := p.type, cluster := p.cluster, priority := p.priority,
             confidence := min (matched.length / 3 : ℚ) 1, matched := matched }
    else none)

/-- `classify`: count keyword substring matches per pattern, drop zero-match
patterns, sort by descending confidence (stable), return the top entry plus the
rest as the secondary list, or the fixed general fallback. -/
def classify (raw : List Char) : Intent :=
  let scores := classifyScores (toLowerChars raw)
  let sorted := scores.insertionSort (fun a b => b.confidence ≤ a.confidence)
  match sorted with
  | [] =>
      { type := "general", cluster := "research", priority := none,
        confidence := 3/10, matched := [], secondary := [] }
  | top :: rest =>
      { type := top.type, cluster := top.cluster, priority := some top.priority,
        confidence := top.confidence, matched := top.matched,
        secondary := rest.map (fun s => { type := s.type, confidence := s.confidence }) }

/-! ## Task decomposer (source: orchestration/task-decomposer.js)

The decomposer splits on the regular expression
`\b(and|then|also|plus|with|after)\b|[.;]\s*` with flags `gi`.  The split is
modelled by a left-to-right scan: at each position the first alternative (a
connector between word boundaries, matched case-insensitively in the listed
order) is tried before the second (`.` or `;` followed by greedy `\s*`); the
leftmost match wins.  `String.split` with one capture group interleaves the
pieces with the group captures; the capture is `none` for the second
alternative (JavaScript `undefined`). -/

def connectors : List String := ["and", "then", "also", "plus", "with", "after"]

def sequenceMarkers : List String :=
  ["then", "after", "once", "when", "finally", "next"]

/-- Try the connector alternative at the current position.  `prev` is the
character immediately before the position (`none` at the start of the string).
Returns the matched original characters. -/
def matchConnectorAt (prev : Option Char) (rest : List Char) : Option (List Char) :=
  let boundaryBefore := match prev with
    | none => true
    | some c => !isWordChar c
  if boundaryBefore then
    connectors.findSome? (fun con =>
      let cl := con.toList
      let candidate := rest.take cl.length
      let after := rest.drop cl.length
      let boundaryAfter := match after with
        | [] => true
        | c :: _ => !isWordChar c
      if toLowerChars candidate = cl && candidate.length = cl.length && boundaryAfter then
        some candidate
      else none)
  else none

/-- Try the `[.;]\s*` alternative at the current position; returns the number
of characters consumed. -/
def matchSepAt (rest : List Char) : Option Nat :=
  match rest with
  | c :: cs => if c = '.' || c = ';' then some (1 + (cs.takeWhile jsWs).length) else none
  | [] => none

/-- Find the leftmost match of the split pattern: returns
(characters before the match, characters consumed, captured group). -/
def findSplitMatch (prev : Option Char) (cs : List Char) :
    Option (Nat × Nat × Option (List Char)) :=
  match cs with
  | [] => none
  | c :: rest =>
      match matchConnectorAt prev (c :: rest) with
      | some grp => some (0, grp.length, some grp)
      | none =>
          match matchSepAt (c :: rest) with
          | some len => some (0, len, none)
          | none =>
              match findSplitMatch (some c) rest with
              | some (i, len, grp) => some (i + 1, len, grp)
              | none => none

/-- `input.split(pattern)` for the decomposer's pattern: the list of pieces
interleaved with capture-group entries (`none` = JavaScript `undefined`). -/
def jsSplitAux (fuel : Nat) (prev : Option Char) (cs : List Char) :
    List (Option (List Char)) :=
  match fuel with
  | 0 => [some cs]
  | fuel + 1 =>
      match findSplitMatch prev cs with
      | none => [some cs]
      | some (i, len, grp) =>
          let consumedEnd := i + len
          let nextPrev := (cs.take consumedEnd).getLast?
          some (cs.take i) :: grp :: jsSplitAux fuel nextPrev (cs.drop consumedEnd)

def jsSplitParts (cs : List Char) : List (Option (List Char)) :=
  jsSplitAux (cs.length + 1) none cs

structure Subtask where
  text : List Char
  connector : List Char
  deriving DecidableEq, Repr

/-- The filtered parts array: drop `undefined` captures, empty strings and
fragments whose trimmed length is ≤ 2 (one `filter`, so later indexing refers
to this filtered array). -/
def filteredParts (cs : List Char) : List (List Char) :=
  (jsSplitParts cs).filterMap (fun o => o.bind (fun p =>
    if (trimChars p).length > 2 then some p else none))

/-- The loop body of `splitIntoSubtasks`: skip parts that are themselves
connectors, otherwise record the trimmed text together with the lowercased
previous part (the "preceding connector"). -/
def subtasksOfParts : Option (List Char) → List (List Char) → List Subtask
  | _, [] => []
  | prevPart, p :: rest =>
      let part := trimChars p
      if connectors.map String.toList |>.contains (toLowerChars part) then
        subtasksOfParts (some p) rest
      else
        { text := part,
          connector := match prevPart with
            | some q => toLowerChars q
            | none => [] } :: subtasksOfParts (some p) rest

/-- `splitIntoSubtasks` with its final single-fragment fallback. -/
def splitIntoSubtasks (input : List Char) : List Subtask :=
  let results := subtasksOfParts none (filteredParts input)
  if results.length > 0 then results else [{ text := input, connector := [] }]

def isSequentialMarker (connector : List Char) : Bool :=
  sequenceMarkers.map String.toList |>.contains (toLowerChars connector)

/-- Number of pieces of `text.split(/\s+/)`: one more than the number of
maximal whitespace runs. -/
def wsRuns : List Char → Nat
  | [] => 0
  | c :: cs =>
      if jsWs c && !(cs.headD 'x' |> jsWs) then 1 + wsRuns cs
      else wsRuns cs

def jsWordSplitCount (cs : List Char) : Nat :=
  wsRuns cs + 1

/-- `calculatePriority`: base 1, +1 for code/devops intents, +1 for fragments
of more than 10 words, capped at 5. -/
def calculatePriority (text : List Char) (intent : Intent) : Nat :=
  let p1 := 1 + (if intent.type = "code" || intent.type = "devops" then 1 else 0)
  let p2 := p1 + (if jsWordSplitCount text > 10 then 1 else 0)
  min p2 5

structure Task where
  id : String
  index : Nat
  description : String
  type : String
  cluster : String
  dependsOn : List String
  status : String
  priority : Nat
  deriving DecidableEq, Repr

structure Decomposition where
  tasks : List Task
  totalTasks : Nat
  hasParallelizable : Bool
  deriving DecidableEq, Repr

/-- The task-building loop of `decompose`.  `idGen` replaces
`randomUUID().slice(0, 8)`; the fresh id of task `i` is `idGen i`. -/
def buildTasks (intent : Intent) (idGen : Nat → String) :
    Nat → Option String → List Subtask → List Task
  | _, _, [] => []
  | i, prevId, st :: rest =>
      let id := idGen i
      let isSeq := isSequentialMarker st.connector
      let task : Task :=
        { id := id, index := i,
          description := ⟨trimChars st.text⟩,
          type := intent.type, cluster := intent.cluster,
          dependsOn := match prevId with
            | some pid => if isSeq then [pid] else []
            | none => [],
          status := "pending",
          priority := calculatePriority st.text intent }
      task :: buildTasks intent idGen (i + 1) (some id) rest

/-- `decompose`: split, build the task list, fall back to a single whole-input
task when the split yields nothing (dead in practice because
`splitIntoSubtasks` already falls back, kept for faithfulness). -/
def decompose (raw : String) (intent : Intent) (idGen : Nat → String) : Decomposition :=
  let subtasks := splitIntoSubtasks raw.toList
  let tasks := buildTasks intent idGen 0 none subtasks
  let tasks := if tasks.length = 0 then
      [{ id := idGen 0, index := 0, description := raw, type := intent.type,
         cluster := intent.cluster, dependsOn := [], status := "pending",
         priority := 1 }]
    else tasks
  { tasks := tasks, totalTasks := tasks.length,
    hasParallelizable := (tasks.filter (fun t => t.dependsOn.length = 0)).length > 1 }

/-! ## Complexity scorer (source: complexity-scorer.js) -/

def riskKeywords : List String :=
  ["deploy", "delete", "production", "database", "migration",
   "security", "authentication", "payment", "critical", "infrastructure"]

/-- Risk-keyword hits of one task description (each keyword counts once per
task, as in the source's `includes` test). -/
def riskHits (t : Task) : Nat :=
  (riskKeywords.filter (fun kw =>
    includesChars (toLowerChars t.description.toList) kw.toList)).length

/-- `calculateRiskFactor`: 1.0 plus 0.2 per hit, capped at 3.0. -/
def calculateRiskFactor (tasks : List Task) : ℚ :=
  min (1 + (2/10) * ((tasks.map riskHits).sum : ℚ)) 3

/-- The recursive `getLevel` of `calculateWaves`.  `⊥` models the JavaScript
`-Infinity` that `Math.max()` of an empty spread produces (dependency ids that
resolve to no task are filtered out); `⊥ + 1 = ⊥` matches `-Infinity + 1`.
The memo map only caches values and is dropped; the fuel bounds the recursion
depth and is never exhausted when dependencies refer to earlier tasks. -/
def getLevel (tasks : List Task) : Nat → Task → WithBot ℤ
  | 0, _ => 0
  | fuel + 1, t =>
      if t.dependsOn.length = 0 then 0
      else
        let deps := t.dependsOn.filterMap (fun d => tasks.find? (fun u => u.id = d))
        let maxDepLevel := (deps.map (getLevel tasks fuel)).foldl max ⊥
        maxDepLevel + 1

/-- `calculateWaves`: `max(0, max over task levels) + 1`. -/
def calculateWaves (tasks : List Task) : ℤ :=
  let levels := tasks.map (getLevel tasks tasks.length)
  (levels.foldl max (0 : WithBot ℤ)).unbot' 0 + 1

structure Complexity where
  score : ℚ
  level : String
  agentCount : ℤ
  waves : ℤ
  subtaskCount : Nat
  dependencyWeight : ℚ
  riskFactor : ℚ
  deriving DecidableEq, Repr

/-- `ComplexityScorer.score`.  The `details` sub-record's own two-decimal
rounding of weight and risk is display-only in the source and is omitted; the
unrounded values feed the score exactly as in the source. -/
def scoreComplexity (d : Decomposition) : Complexity :=
  let tasks := d.tasks
  let subtaskCount := tasks.length
  let totalDeps := (tasks.map (fun t => t.dependsOn.length)).sum
  let dependencyWeight : ℚ := 1 + (totalDeps : ℚ) / (max subtaskCount 1 : ℚ)
  let riskFactor := calculateRiskFactor tasks
  let score : ℚ := (mathRound ((subtaskCount : ℚ) * dependencyWeight * riskFactor * 10) : ℚ) / 10
  let level := if score ≤ 3 then "simple" else if score ≤ 7 then "medium" else "complex"
  let agentRange : ℚ × ℚ :=
    if score ≤ 3 then (1, 2) else if score ≤ 7 then (3, 5) else (5, 10)
  let normalizedScore := min (score / 10) 1
  let agentCount := mathRound (agentRange.1 + normalizedScore * (agentRange.2 - agentRange.1))
  { score := score, level := level, agentCount := agentCount,
    waves := calculateWaves tasks, subtaskCount := subtaskCount,
    dependencyWeight := dependencyWeight, riskFactor := riskFactor }

/-! ## Agent spawner (source: agents/spawner.js) -/

structure Allocation where
  agents : List Agent
  assignments : List (String × List String)
  strategy : String
  deriving DecidableEq, Repr

/-- `Map.set` on an association list: replace in place or append. -/
def mapSet (m : List (String × List String)) (k : String) (v : List String) :
    List (String × List String) :=
  if m.any (fun e => e.1 = k) then m.map (fun e => if e.1 = k then (k, v) else e)
  else m ++ [(k, v)]

/-- Deduplicate by id preserving order (`seen` set filter). -/
def dedupeById : List String → List Agent → List Agent
  | _, [] => []
  | seen, a :: rest =>
      if seen.contains a.id then dedupeById seen rest
      else a :: dedupeById (seen ++ [a.id]) rest

/-- The secondary candidate pool built inside `allocate`: for each secondary
intent the registry is queried with `{cluster: sec.type, complexity: level}` —
note the source passes the secondary intent's *type*, and the secondary
records produced by `classify` carry no cluster field. -/
def secondaryPool (reg : Registry) (secondary : List SecIntent) (level : String) :
    List Agent :=
  (secondary.map (fun sec =>
    findAgents reg { cluster := some sec.type, complexity := some level })).flatten

/-- `selectAgents`: take from the deduplicated pool according to level. -/
def selectAgents (pool : List Agent) (cx : Complexity) : List Agent :=
  let count : ℤ := min cx.agentCount (pool.length : ℤ)
  if cx.level = "simple" then pool.take (max 1 count).toNat
  else if cx.level = "medium" then pool.take count.toNat
  else pool.take (min (pool.length : ℤ) 10).toNat

/-- `assignToTask`: agents of the selected set in the task's cluster, else the
first selected agent (an empty list when nothing was selected). -/
def assignToTask (task : Task) (selectedAgents : List Agent) : List Agent :=
  let matching := selectedAgents.filter (fun a => a.cluster = task.cluster)
  if matching.length > 0 then matching else selectedAgents.take 1

def getStrategy (level : String) : String :=
  if level = "simple" then "direct_execution"
  else if level = "medium" then "parallel_pool"
  else if level = "complex" then "dag_staged_waves"
  else "direct_execution"

/-- `AgentSpawner.allocate`. -/
def allocate (reg : Registry) (d : Decomposition) (cx : Complexity)
    (intent : Intent) : Allocation :=
  let primaryAgents := findAgents reg
    { cluster := some intent.cluster, complexity := some cx.level }
  let secondaryAgents := secondaryPool reg intent.secondary cx.level
  let uniquePool := dedupeById [] (primaryAgents ++ secondaryAgents)
  let selected := selectAgents uniquePool cx
  let assignments := d.tasks.foldl (fun m t =>
    mapSet m t.id ((assignToTask t selected).map (fun a => a.id))) []
  { agents := selected, assignments := assignments,
    strategy := getStrategy cx.level }

/-! ## DAG scheduler (source: execution/dag-scheduler.js)

The node `Map` is modelled as the list of node records in insertion order; the
waves hold node ids (the JavaScript waves hold references into the same node
map, so a wave element is identified by its id and its current fields live in
the node list that is threaded through the execution). -/

instance : DecidableEq (Except String String) := fun a b =>
  match a, b with
  | .ok x, .ok y => if h : x = y then .isTrue (by rw [h]) else .isFalse (by simp [h])
  | .error x, .error y => if h : x = y then .isTrue (by rw [h]) else .isFalse (by simp [h])
  | .ok _, .error _ => .isFalse (by simp)
  | .error _, .ok _ => .isFalse (by simp)

structure DNode where
  task : Task
  dependsOn : List String
  dependents : List String
  status : String
  result : Option (Except String String)
  deriving DecidableEq, Repr

/-- Node creation in `buildDAG`: `new Set(task.dependsOn)` keeps first
occurrences in insertion order. -/
def mkNode (t : Task) : DNode :=
  { task := t, dependsOn := t.dependsOn.foldl addToSet [],
    dependents := [], status := "pending", result := none }

/-- `Map.set` for node records (replace in place on an existing id). -/
def nodesInsert (ns : List DNode) (n : DNode) : List DNode :=
  if ns.any (fun m => m.task.id = n.task.id) then
    ns.map (fun m => if m.task.id = n.task.id then n else m)
  else ns ++ [n]

/-- The reverse-dependency pass of `buildDAG`: for every task and every id it
depends on, add the task's id to that node's `dependents` set (missing ids are
ignored). -/
def addDependents (tasks : List Task) (ns : List DNode) : List DNode :=
  tasks.foldl (fun ns t =>
    t.dependsOn.foldl (fun ns depId =>
      ns.map (fun m =>
        if m.task.id = depId then { m with dependents := addToSet m.dependents t.id }
        else m)) ns) ns

/-- One frontier of `computeWaves`: pending nodes not yet completed whose
dependencies are all completed. -/
def waveFrontier (nodes : List DNode) (completed : List String) : List DNode :=
  nodes.filter (fun n =>
    !completed.contains n.task.id && n.status = "pending" &&
    n.dependsOn.all (fun d => completed.contains d))

/-- End-of-round bookkeeping of `computeWaves`: mark every wave node as
scheduled. -/
def markScheduled (waveIds : List String) (nodes : List DNode) : List DNode :=
  nodes.map (fun n =>
    if waveIds.contains n.task.id then { n with status := "scheduled" } else n)

/-- The `while` loop of `computeWaves`.  Every productive round adds at least
one id to `completed`, so `nodes.length` rounds of fuel are never exhausted;
an empty frontier with nodes remaining is the source's cycle break (it logs
and stops).  Returns the waves (as id lists) and the node list with scheduled
statuses. -/
def computeWavesAux : Nat → List DNode → List String → List (List String) × List DNode
  | 0, nodes, _ => ([], nodes)
  | fuel + 1, nodes, completed =>
      if completed.length < nodes.length then
        let wave := waveFrontier nodes completed
        if wave.length = 0 then ([], nodes)
        else
          let waveIds := wave.map (fun n => n.task.id)
          let nodes1 := markScheduled waveIds nodes
          let rec1 := computeWavesAux fuel nodes1 (completed ++ waveIds)
          (waveIds :: rec1.1, rec1.2)
      else ([], nodes)

structure DAG where
  nodes : List DNode
  waves : List (List String)
  deriving DecidableEq, Repr

/-- `buildDAG`: create the node map, fill in `dependents`, compute waves. -/
def buildDAG (d : Decomposition) : DAG :=
  let nodes0 := d.tasks.foldl (fun ns t => nodesInsert ns (mkNode t)) []
  let nodes1 := addDependents d.tasks nodes0
  let cw := computeWavesAux nodes1.length nodes1 []
  { nodes := cw.2, waves := cw.1 }

structure TaskResult where
  taskId : String
  description : String
  status : String
  output : Option String
  error : Option String
  duration : Nat
  agentId : Option String
  wave : Nat
  deriving DecidableEq, Repr

structure ExecutionResult where
  results : List TaskResult
  waves : Nat
  totalTasks : Nat
  deriving DecidableEq, Repr

/-- `skipDependents`: for each failed id, mark every still-pending direct
dependent as skipped. -/
def skipDependents (nodes : List DNode) (failedIds : List String) : List DNode :=
  failedIds.foldl (fun ns fid =>
    match ns.find? (fun n => n.task.id = fid) with
    | none => ns
    | some failedNode =>
        failedNode.dependents.foldl (fun ns2 depId =>
          ns2.map (fun n =>
            if n.task.id = depId && n.status = "pending" then
              { n with status := "skipped" }
            else n)) ns) nodes

/-- Dispatch of one wave node.  `worker` is the injected worker-pool body
(`{output}` on success, an error message on failure); `durFn` abstracts the
wall-clock duration measured for a successful task.  The transient `running`
status is immediately overwritten by the settle status, as in the source's
async closure. -/
def dispatchNode (assignments : List (String × List String))
    (worker : Task → Except String String) (durFn : String → Nat)
    (waveIdx : Nat) (n : DNode) : TaskResult × DNode :=
  let task := n.task
  let agentIds := ((assignments.find? (fun e => e.1 = task.id)).map (fun e => e.2)).getD []
  match worker task with
  | .ok out =>
      ({ taskId := task.id, description := task.description, status := "completed",
         output := some (if out = "" then "Task completed" else out),
         error := none, duration := durFn task.id, agentId := agentIds.head?,
         wave := waveIdx },
       { n with status := "completed", result := some (.ok out) })
  | .error e =>
      ({ taskId := task.id, description := task.description, status := "failed",
         output := none, error := some e, duration := 0, agentId := agentIds.head?,
         wave := waveIdx },
       { n with status := "failed", result := some (.error e) })

/-- Process one wave: every node of the wave is dispatched (the source applies
no status check before dispatch), the node map is updated, and if any task of
the wave failed and a later wave exists, `skipDependents` runs. -/
def runWave (assignments : List (String × List String))
    (worker : Task → Except String String) (durFn : String → Nat)
    (waveCount : Nat) (acc : List TaskResult × List DNode)
    (iw : Nat × List String) : List TaskResult × List DNode :=
  let (i, waveIds) := iw
  let step := waveIds.foldl (fun (st : List TaskResult × List DNode) id =>
    match st.2.find? (fun n => n.task.id = id) with
    | none => st
    | some n =>
        let (tr, n1) := dispatchNode assignments worker durFn i n
        (st.1 ++ [tr], st.2.map (fun m => if m.task.id = id then n1 else m)))
    ([], acc.2)
  let failures := step.1.filter (fun r => r.status = "failed")
  let nodes2 :=
    if failures.length > 0 && i < waveCount - 1 then
      skipDependents step.2 (failures.map (fun r => r.taskId))
    else step.2
  (acc.1 ++ step.1, nodes2)

/-- `DAGScheduler.execute`: wave-by-wave execution with a strict barrier. -/
def executeDAG (dag : DAG) (assignments : List (String × List String))
    (worker : Task → Except String String) (durFn : String → Nat) :
    ExecutionResult × List DNode :=
  let run : List TaskResult × List DNode := dag.waves.enum.foldl
    (runWave assignments worker durFn dag.waves.length) ([], dag.nodes)
  ({ results := run.1, waves := dag.waves.length, totalTasks := run.1.length }, run.2)

/-! ## Result evaluator and aggregator (source: result-evaluator.js,
result-aggregator.js) -/

structure EvalError where
  taskId : String
  error : String
  recoverable : Bool
  deriving DecidableEq, Repr

structure Evaluation where
  completed : Nat
  failed : Nat
  skipped : Nat
  total : Nat
  successRate : ℚ
  totalDuration : Nat
  avgDuration : ℤ
  errors : List EvalError
  quality : ℚ
  deriving DecidableEq, Repr

def roundTo2 (q : ℚ) : ℚ :=
  (mathRound (q * 100) : ℚ) / 100

/-- `calculateQuality`: weighted success, speed and error scores, rounded to
two decimals. -/
def calculateQuality (successRate : ℚ) (avgDuration : ℚ) (errorCount : Nat) : ℚ :=
  let speedScore := max 0 (1 - avgDuration / 10000)
  let errorScore := max 0 (1 - (errorCount : ℚ) / 5)
  roundTo2 (successRate * (6/10) + speedScore * (2/10) + errorScore * (2/10))

/-- `ResultEvaluator.evaluate`. -/
def evaluate (er : ExecutionResult) : Evaluation :=
  let results := er.results
  let completed := (results.filter (fun r => r.status = "completed")).length
  let failed := (results.filter (fun r => r.status = "failed")).length
  let skipped := (results.filter (fun r => r.status = "skipped")).length
  let totalDuration : Nat := (results.map (fun r => r.duration)).sum
  let avgDuration : ℚ :=
    if results.length > 0 then (totalDuration : ℚ) / results.length else 0
  let successRate : ℚ :=
    if results.length > 0 then (completed : ℚ) / results.length else 0
  let errors := results.filterMap (fun r => r.error.map (fun e =>
    ({ taskId := r.taskId, error := e,
       recoverable := !includesChars e.toList "fatal".toList } : EvalError)))
  { completed := completed, failed := failed, skipped := skipped,
    total := results.length, successRate := roundTo2 successRate,
    totalDuration := totalDuration, avgDuration := mathRound avgDuration,
    errors := errors,
    quality := calculateQuality successRate avgDuration errors.length }

/-- `ResultAggregator.generateSummary` (string assembly). -/
def generateSummary (ev : Evaluation) (results : List TaskResult) : String :=
  let parts : List String :=
    (if ev.completed > 0 then
      ["✓ " ++ toString ev.completed ++ "/" ++ toString ev.total ++ " tasks completed"]
     else []) ++
    (if ev.failed > 0 then ["✗ " ++ toString ev.failed ++ " failed"] else []) ++
    (if ev.totalDuration > 0 then ["⏱ " ++ toString ev.totalDuration ++ "ms total"] else []) ++
    ["Quality: " ++ toString (mathRound (ev.quality * 100)) ++ "%"]
  let header := String.intercalate " | " parts
  let outputLines := results.filterMap (fun r =>
    match r.output with
    | some out => if out ≠ "" && r.status = "completed" then
        some ("  • " ++ r.description ++ ": " ++ out) else none
    | none => none)
  let outputs := String.intercalate "\n" outputLines
  if outputLines.length > 0 then header ++ "\n\n" ++ outputs else header

/-! ## Orchestrator (source: orchestration/orchestrator.js)

`parseInput` performs no validation whatsoever: it only packages the raw
string.  No stage of the pipeline contains a `throw` for any input (the single
`throw` in the worker pool re-raises a worker error and is caught inside the
DAG scheduler's per-task `catch`), so the orchestrator's `catch` branch — the
error form `{error, pipeline, metrics}` — is unreachable and `execute` is a
total function returning the success form.  The injected parameters replace
the sources of nondeterminism: `idGen` the `randomUUID` ids, `worker` the
worker-pool body, `durFn` the wall-clock durations. -/

structure ParsedInput where
  raw : String
  tokenCount : Nat
  length : Nat
  wordCount : Nat
  deriving DecidableEq, Repr

/-- `parseInput`: pure repackaging, no emptiness or whitespace check.  The
`tokens` array is kept only as its length (it is never consumed downstream). -/
def parseInput (input : String) : ParsedInput :=
  { raw := input,
    tokenCount := jsWordSplitCount input.toList,
    length := input.toList.length,
    wordCount := jsWordSplitCount input.toList }

structure Pipeline where
  intent : Option Intent
  decomposition : Option Decomposition
  complexity : Option Complexity
  agents : Option Allocation
  execution : Option ExecutionResult
  evaluation : Option Evaluation
  deriving Repr

structure Metrics where
  agentsUsed : Nat
  tasksCompleted : Nat
  tasksFailed : Nat
  complexityLevel : String
  deriving DecidableEq, Repr

/-- The orchestrator's return value: `error? = none` is the success form
`{output, pipeline, metrics}`, `error? = some msg` the error form. -/
structure OrchResult where
  output : String
  errorMsg : Option String
  pipeline : Pipeline
  metrics : Option Metrics
  deriving Repr

/-- `Orchestrator.execute`, stages 1–10.  Stage 9 (learning) only mutates the
memory and the update queue and does not contribute to the returned record;
the wall-clock `duration` metric is omitted (it is time, not data). -/
def orchestratorExecute (input : String) (reg : Registry) (idGen : Nat → String)
    (worker : Task → Except String String) (durFn : String → Nat) : OrchResult :=
  let parsed := parseInput input
  let intent := classify parsed.raw.toList
  let tasks := decompose parsed.raw intent idGen
  let complexity := scoreComplexity tasks
  let allocation := allocate reg tasks complexity intent
  let dag := buildDAG tasks
  let executionResult := (executeDAG dag allocation.assignments worker durFn).1
  let evaluation := evaluate executionResult
  let aggregated := generateSummary evaluation executionResult.results
  { output := aggregated,
    errorMsg := none,
    pipeline := { intent := some intent, decomposition := some tasks,
                  complexity := some complexity, agents := some allocation,
                  execution := some executionResult, evaluation := some evaluation },
    metrics := some { agentsUsed := allocation.agents.length,
                      tasksCompleted := evaluation.completed,
                      tasksFailed := evaluation.failed,
                      complexityLevel := complexity.level } }

/-! ## Claim C7: the confidence adjustment of `updateAgentMetrics` -/

/-- Claim C7.  For every call of the registry's metric update on an agent
record: on a successful execution strictly faster than the agent's
`avgExecutionTime` held when the call begins, confidence rises by 0.02 capped
at 1.0; on a failure it falls by 0.05 floored at 0.1; otherwise it is
unchanged.  The source compares the duration against the already-updated
exponential moving average, but with α = 0.3 the comparison
`d < 0.7·avg + 0.3·d` is equivalent to `d < avg`, so the claim's reading
against the prior average holds exactly. -/
theorem c7_confidence_update_matches_prior_average (a : Agent) (d : ℚ) (failed : Bool) :
    (updateAgentRecord a d failed).confidenceScore =
      if failed then max (1/10) (a.confidenceScore - 5/100)
      else if d < a.avgExecutionTime then min 1 (a.confidenceScore + 2/100)
      else a.confidenceScore := by
  cases failed with
  | true => simp [updateAgentRecord]
  | false =>
      simp only [updateAgentRecord, Bool.not_false, Bool.true_and, Bool.false_eq_true,
        if_false, decide_eq_true_eq]
      by_cases h : d < a.avgExecutionTime * (1 - 3/10) + d * (3/10)
      · have h2 : d < a.avgExecutionTime := by linarith
        simp [h, h2]
      · have h2 : ¬ d < a.avgExecutionTime := fun hc => h (by linarith)
        simp [h, h2]

/-! ## Claim C8: the 1000/500 performance-log cap -/

lemma recordPerformance_length_le {α : Type} (log : List α) (e : α)
    (h : log.length ≤ 1000) : (recordPerformance log e).length ≤ 1000 := by
  simp only [recordPerformance]
  split_ifs with hlen
  · rw [List.length_drop]
    omega
  · simp only [List.length_append, List.length_singleton, gt_iff_lt, not_lt] at hlen ⊢
    omega

/-- Claim C8.  Along any sequence of `recordPerformance` calls starting from
the empty log the log never exceeds 1000 entries, and a call that would push
it past 1000 retains exactly the newest 500 entries (the result is a length-500
suffix of the appended log). -/
theorem c8_performance_log_capped (α : Type) (entries : List α) :
    ((entries.foldl recordPerformance ([] : List α)).length ≤ 1000) ∧
    (∀ (log : List α) (e : α), (log ++ [e]).length > 1000 →
      (recordPerformance log e).length = 500 ∧
      recordPerformance log e <:+ log ++ [e]) := by
  constructor
  · have aux : ∀ (l : List α) (start : List α), start.length ≤ 1000 →
        (l.foldl recordPerformance start).length ≤ 1000 := by
      intro l
      induction l with
      | nil => intro start h; simpa using h
      | cons x xs ih =>
          intro start h
          exact ih _ (recordPerformance_length_le start x h)
    exact aux entries [] (by simp)
  · intro log e h
    simp only [recordPerformance]
    rw [if_pos h]
    refine ⟨?_, List.drop_suffix _ _⟩
    rw [List.length_drop]
    simp only [List.length_append, List.length_singleton] at h ⊢
    omega

/-- Witness for C8 at a concrete overflowing log. -/
theorem c8_performance_log_capped_witness :
    ((List.replicate 1000 (0 : Nat)) ++ [0]).length > 1000 ∧
    ((recordPerformance (List.replicate 1000 (0 : Nat)) 0).length = 500 ∧
      recordPerformance (List.replicate 1000 (0 : Nat)) 0 <:+
        (List.replicate 1000 (0 : Nat)) ++ [0]) :=
  ⟨by simp only [List.length_append, List.length_replicate, List.length_singleton]; omega,
   (c8_performance_log_capped Nat []).2 (List.replicate 1000 0) 0
     (by simp only [List.length_append, List.length_replicate, List.length_singleton]; omega)⟩

/-! ## Claim C9: bounded worker pool with FIFO waiters -/

lemma poolStep_inv (s : PoolState) (op : PoolOp)
    (h1 : s.activeWorkers ≤ s.maxWorkers)
    (h2 : s.enqueuedLog = s.resumedLog ++ s.queue) :
    (poolStep s op).activeWorkers ≤ (poolStep s op).maxWorkers ∧
    (poolStep s op).enqueuedLog = (poolStep s op).resumedLog ++ (poolStep s op).queue ∧
    (poolStep s op).maxWorkers = s.maxWorkers := by
  cases op with
  | submit w =>
      simp only [poolStep]
      split_ifs with hsat
      · refine ⟨h1, ?_, rfl⟩
        show s.enqueuedLog ++ [w] = s.resumedLog ++ (s.queue ++ [w])
        rw [h2, List.append_assoc]
      · refine ⟨?_, h2, rfl⟩
        show s.activeWorkers + 1 ≤ s.maxWorkers
        omega
  | finish =>
      simp only [poolStep]
      split_ifs with hz hpq
      · exact ⟨h1, h2, rfl⟩
      · obtain ⟨hql, hlt⟩ := hpq
        cases hq : s.queue with
        | nil =>
            rw [hq] at hql
            simp at hql
        | cons w rest =>
            rw [hq] at h2
            refine ⟨?_, ?_, rfl⟩
            · show s.activeWorkers - 1 + 1 ≤ s.maxWorkers
              omega
            · show s.enqueuedLog = s.resumedLog ++ [w] ++ rest
              rw [h2, List.append_assoc]
              rfl
      · refine ⟨?_, h2, rfl⟩
        show s.activeWorkers - 1 ≤ s.maxWorkers
        omega

/-- Claim C9.  For every worker-pool capacity and every sequence of
submissions and completions, the number of admitted-and-unfinished jobs never
exceeds `maxWorkers` (the constructor default being 8, `poolInit`), and
waiters are resumed in FIFO order: at every reachable state the enqueue log
equals the resume log followed by the still-waiting queue, i.e. waiters leave
the queue exactly in arrival order. -/
theorem c9_pool_bounded_and_fifo (maxWorkers : Nat) (ops : List PoolOp) :
    (runPool (poolInit maxWorkers) ops).activeWorkers ≤
      (runPool (poolInit maxWorkers) ops).maxWorkers ∧
    (runPool (poolInit maxWorkers) ops).enqueuedLog =
      (runPool (poolInit maxWorkers) ops).resumedLog ++
        (runPool (poolInit maxWorkers) ops).queue := by
  have aux : ∀ (l : List PoolOp) (s : PoolState),
      s.activeWorkers ≤ s.maxWorkers →
      s.enqueuedLog = s.resumedLog ++ s.queue →
      (l.foldl poolStep s).activeWorkers ≤ (l.foldl poolStep s).maxWorkers ∧
      (l.foldl poolStep s).enqueuedLog =
        (l.foldl poolStep s).resumedLog ++ (l.foldl poolStep s).queue := by
    intro l
    induction l with
    | nil => intro s h1 h2; exact ⟨h1, h2⟩
    | cons op rest ih =>
        intro s h1 h2
        obtain ⟨g1, g2, _⟩ := poolStep_inv s op h1 h2
        exact ih _ g1 g2
  exact aux ops (poolInit maxWorkers) (by simp [poolInit]) (by simp [poolInit])

/-! ## Claim C6: confidence bounds invariant -/

lemma roundTo3_bounds (q : ℚ) (hl : 1/10 ≤ q) (hu : q ≤ 1) :
    1/10 ≤ roundTo3 q ∧ roundTo3 q ≤ 1 := by
  have hlow : (100 : ℤ) ≤ ⌊q * 1000 + 1/2⌋ := Int.le_floor.mpr (by push_cast; linarith)
  have hup : ⌊q * 1000 + 1/2⌋ ≤ 1000 := by
    have h3 : (⌊q * 1000 + 1/2⌋ : ℚ) ≤ q * 1000 + 1/2 := Int.floor_le _
    have h4 : (⌊q * 1000 + 1/2⌋ : ℚ) < 1001 := lt_of_le_of_lt h3 (by linarith)
    have h5 : ⌊q * 1000 + 1/2⌋ < 1001 := by exact_mod_cast h4
    omega
  have hlQ : (100 : ℚ) ≤ ((⌊q * 1000 + 1/2⌋ : ℤ) : ℚ) := by exact_mod_cast hlow
  have huQ : ((⌊q * 1000 + 1/2⌋ : ℤ) : ℚ) ≤ 1000 := by exact_mod_cast hup
  unfold roundTo3 mathRound
  constructor
  · linarith
  · linarith

unseal Rat.add Rat.mul Rat.inv Rat.sub in
/-- Seed confidence bounds of the freshly constructed registry. -/
lemma initialAgents_conf_bounds :
    ∀ a ∈ initialAgents, 1/10 ≤ a.confidenceScore ∧ a.confidenceScore ≤ 1 := by
  decide

lemma updateAgentRecord_conf_bounds (a : Agent) (d : ℚ) (f : Bool)
    (hl : 1/10 ≤ a.confidenceScore) (hu : a.confidenceScore ≤ 1) :
    1/10 ≤ (updateAgentRecord a d f).confidenceScore ∧
      (updateAgentRecord a d f).confidenceScore ≤ 1 := by
  simp only [updateAgentRecord]
  split_ifs with h1 h2
  · exact ⟨le_min (by norm_num) (by linarith), min_le_left _ _⟩
  · exact ⟨le_max_left _ _, max_le (by norm_num) (by linarith)⟩
  · exact ⟨hl, hu⟩

lemma applyOneUpdate_conf_bounds (reg : Registry) (u : String × ℚ)
    (h : ∀ a ∈ reg, 1/10 ≤ a.confidenceScore ∧ a.confidenceScore ≤ 1) :
    ∀ a ∈ applyOneUpdate reg u, 1/10 ≤ a.confidenceScore ∧ a.confidenceScore ≤ 1 := by
  intro a ha
  simp only [applyOneUpdate, List.mem_map] at ha
  obtain ⟨b, hb, rfl⟩ := ha
  split_ifs with hid
  · simp only
    apply roundTo3_bounds
    · exact le_max_left _ _
    · exact max_le (by norm_num) (min_le_left _ _)
  · exact h b hb

lemma applyUpdates_conf_bounds (queue : List (String × ℚ)) :
    ∀ (reg : Registry),
      (∀ a ∈ reg, 1/10 ≤ a.confidenceScore ∧ a.confidenceScore ≤ 1) →
      ∀ a ∈ applyUpdates reg queue, 1/10 ≤ a.confidenceScore ∧ a.confidenceScore ≤ 1 := by
  induction queue with
  | nil => intro reg h; exact h
  | cons u rest ih =>
      intro reg h
      exact ih _ (applyOneUpdate_conf_bounds reg u h)

lemma runRegistryOp_conf_bounds (reg : Registry) (op : RegistryOp)
    (h : ∀ a ∈ reg, 1/10 ≤ a.confidenceScore ∧ a.confidenceScore ≤ 1) :
    ∀ a ∈ runRegistryOp reg op, 1/10 ≤ a.confidenceScore ∧ a.confidenceScore ≤ 1 := by
  cases op with
  | metrics id d f =>
      intro a ha
      simp only [runRegistryOp, updateAgentMetrics, List.mem_map] at ha
      obtain ⟨b, hb, rfl⟩ := ha
      split_ifs with hid
      · exact updateAgentRecord_conf_bounds b d f (h b hb).1 (h b hb).2
      · exact h b hb
  | apply q => exact applyUpdates_conf_bounds q reg h

/-- Counterexample to C6 as stated: `initializeDefaults` registers twelve
agents, not eleven. -/
theorem c6_counterexample_twelve_seeded_agents :
    initialAgents.length = 12 ∧ ¬ initialAgents.length = 11 := by
  constructor <;> decide

/-- Claim C6, amended: starting from the freshly constructed registry (whose
twelve seeded agents all have confidence in [0.1, 1.0]), after any sequence of
`updateAgentMetrics` calls and `applyUpdates` calls with arbitrary queued
deltas, every agent's confidence satisfies 0.1 ≤ confidence ≤ 1.0. -/
theorem c6_confidence_always_bounded (ops : List RegistryOp) :
    ∀ a ∈ runRegistryOps initialAgents ops,
      1/10 ≤ a.confidenceScore ∧ a.confidenceScore ≤ 1 := by
  have aux : ∀ (l : List RegistryOp) (reg : Registry),
      (∀ a ∈ reg, 1/10 ≤ a.confidenceScore ∧ a.confidenceScore ≤ 1) →
      ∀ a ∈ l.foldl runRegistryOp reg,
        1/10 ≤ a.confidenceScore ∧ a.confidenceScore ≤ 1 := by
    intro l
    induction l with
    | nil => intro reg h; exact h
    | cons op rest ih => intro reg h; exact ih _ (runRegistryOp_conf_bounds reg op h)
  exact aux ops initialAgents initialAgents_conf_bounds

/-! ## Claim C5: the secondary candidate pool -/

/-- The cluster belonging to an intent type, read off the classifier's pattern
table (identity fallback for unknown types). -/
def intentClusterOf (t : String) : String :=
  (((intentPatterns.find? (fun p => p.type = t)).map (fun p => p.cluster))).getD t

/-- Stated from the spec's words, for comparison with the source's
`secondaryPool`: "Secondary pool = union over each secondary intent of
`findAgents({cluster: sec.cluster, complexity: level})`", where a secondary
intent's cluster is the cluster of its intent pattern. -/
def secondaryPoolSpec (reg : Registry) (secondary : List SecIntent) (level : String) :
    List Agent :=
  (secondary.map (fun sec =>
    findAgents reg { cluster := some (intentClusterOf sec.type),
                     complexity := some level })).flatten

unseal Rat.add Rat.mul Rat.inv Rat.sub in
/-- Counterexample to C5 as stated: for the classified intent of
"research the design" the one secondary intent is `design`, whose cluster is
`uiux`; the source queries the registry with cluster `design` and obtains no
candidates, while the secondary intent's cluster `uiux` holds two eligible
agents. -/
theorem c5_counterexample_design_secondary_yields_nothing :
    (classify ("research the design").toList).secondary =
      [{ type := "design", confidence := 1/3 }] ∧
    secondaryPool initialAgents (classify ("research the design").toList).secondary
      "simple" = [] ∧
    (secondaryPoolSpec initialAgents (classify ("research the design").toList).secondary
      "simple").map (fun a => a.id) = ["frontend_agent_v1", "designer_agent_v1"] := by
  refine ⟨by decide, by decide, by decide⟩

/-- Claim C5, amended: the secondary candidate pool is the union, over each
secondary intent of the classified Intent, of `findAgents` filtered by that
secondary intent's *type* used as the cluster key (not by the intent's
cluster; secondary records carry no cluster, so types whose pattern cluster
differs from the type name contribute no candidates). -/
theorem c5_secondary_pool_unions_by_intent_type (reg : Registry)
    (secondary : List SecIntent) (level : String) (a : Agent) :
    a ∈ secondaryPool reg secondary level ↔
      ∃ s ∈ secondary,
        a ∈ findAgents reg { cluster := some s.type, complexity := some level } := by
  simp only [secondaryPool, List.mem_flatten, List.mem_map]
  constructor
  · rintro ⟨l, ⟨s, hs, rfl⟩, ha⟩
    exact ⟨s, hs, ha⟩
  · rintro ⟨s, hs, ha⟩
    exact ⟨_, ⟨s, hs, rfl⟩, ha⟩

/-! ## Claim C3: totality of the assignment map and the missing
`NoEligibleAgents` failure -/

lemma mapSet_self_mem (m : List (String × List String)) (k : String) (v : List String) :
    (k, v) ∈ mapSet m k v := by
  unfold mapSet
  split_ifs with h
  · obtain ⟨e, he, hek⟩ := List.any_eq_true.mp h
    refine List.mem_map.mpr ⟨e, he, ?_⟩
    simp only [decide_eq_true_eq] at hek
    simp [hek]
  · exact List.mem_append_right _ (List.mem_singleton.mpr rfl)

lemma mapSet_mem_of_mem (m : List (String × List String)) (k : String) (v : List String)
    (e : String × List String) (he : e ∈ m) :
    (if e.1 = k then (k, v) else e) ∈ mapSet m k v := by
  unfold mapSet
  by_cases hm : (m.any fun x => decide (x.1 = k)) = true
  · rw [if_pos hm]
    exact List.mem_map.mpr ⟨e, he, rfl⟩
  · rw [if_neg hm]
    have hek : ¬ e.1 = k := fun hk => hm (List.any_eq_true.mpr ⟨e, he, by simp [hk]⟩)
    rw [if_neg hek]
    exact List.mem_append_left _ he

lemma mapSet_src (m : List (String × List String)) (k : String) (v : List String)
    (e : String × List String) (he : e ∈ mapSet m k v) : e ∈ m ∨ e = (k, v) := by
  unfold mapSet at he
  split_ifs at he with h
  · obtain ⟨e0, he0, heq⟩ := List.mem_map.mp he
    by_cases h0 : e0.1 = k
    · right
      rw [if_pos h0] at heq
      exact heq.symm
    · left
      rw [if_neg h0] at heq
      exact heq ▸ he0
  · rcases List.mem_append.mp he with h1 | h1
    · exact Or.inl h1
    · exact Or.inr (List.mem_singleton.mp h1)

lemma assignFold_preserves_key (f : Task → List String) (tasks : List Task) :
    ∀ (m : List (String × List String)) (k : String),
      (∃ e ∈ m, e.1 = k) →
      ∃ e ∈ tasks.foldl (fun m t => mapSet m t.id (f t)) m, e.1 = k := by
  induction tasks with
  | nil => intro m k h; exact h
  | cons t ts ih =>
      intro m k h
      obtain ⟨e, he, hek⟩ := h
      refine ih (mapSet m t.id (f t)) k ⟨_, mapSet_mem_of_mem m t.id (f t) e he, ?_⟩
      by_cases h0 : e.1 = t.id
      · rw [if_pos h0]; rw [← h0, hek]
      · rw [if_neg h0]; exact hek

lemma assignFold_covers (f : Task → List String) (tasks : List Task) :
    ∀ (m : List (String × List String)) (t : Task), t ∈ tasks →
      ∃ e ∈ tasks.foldl (fun m t => mapSet m t.id (f t)) m, e.1 = t.id := by
  induction tasks with
  | nil => intro m t h; exact absurd h (List.not_mem_nil t)
  | cons t0 ts ih =>
      intro m t ht
      rcases List.mem_cons.mp ht with h0 | h0
      · subst h0
        exact assignFold_preserves_key f ts (mapSet m t.id (f t)) t.id
          ⟨(t.id, f t), mapSet_self_mem m t.id (f t), rfl⟩
      · exact ih (mapSet m t0.id (f t0)) t h0

lemma assignFold_src (f : Task → List String) (tasks : List Task) :
    ∀ (m : List (String × List String)) (e : String × List String),
      e ∈ tasks.foldl (fun m t => mapSet m t.id (f t)) m →
      e ∈ m ∨ ∃ t ∈ tasks, e = (t.id, f t) := by
  induction tasks with
  | nil => intro m e h; exact Or.inl h
  | cons t0 ts ih =>
      intro m e he
      rcases ih (mapSet m t0.id (f t0)) e he with h1 | h1
      · rcases mapSet_src m t0.id (f t0) e h1 with h2 | h2
        · exact Or.inl h2
        · exact Or.inr ⟨t0, List.mem_cons_self t0 ts, h2⟩
      · obtain ⟨t, ht, hte⟩ := h1
        exact Or.inr ⟨t, List.mem_cons_of_mem t0 ht, hte⟩

lemma assignToTask_eq_nil_iff (t : Task) (sel : List Agent) :
    assignToTask t sel = [] ↔ sel = [] := by
  simp only [assignToTask]
  split_ifs with h
  · constructor
    · intro hnil
      rw [hnil] at h
      simp at h
    · intro hsel
      rw [hsel] at h
      simp at h
  · cases sel with
    | nil => simp
    | cons a rest => simp

unseal Rat.add Rat.mul Rat.inv Rat.sub in
/-- Counterexample to C3 as stated: for the real input "deploy" the seeded
registry has no devops agent supporting complexity `simple`, so the selected
set is empty; `allocate` neither fails nor raises any `NoEligibleAgents`
error (none exists in the code) — it returns an allocation whose single task
is mapped to the *empty* agent list. -/
theorem c3_counterexample_empty_pool_returns_allocation :
    allocate initialAgents
        (decompose "deploy" (classify "deploy".toList) (fun n => "t" ++ toString (n + 1)))
        (scoreComplexity
          (decompose "deploy" (classify "deploy".toList) (fun n => "t" ++ toString (n + 1))))
        (classify "deploy".toList) =
      { agents := [], assignments := [("t1", [])], strategy := "direct_execution" } := by
  decide

/-- Claim C3, amended: every task id of the decomposition appears as a key in
the assignments map, and a task's agent list is empty exactly when the
selected agent set is empty; an empty selected set does not fail the
allocation — `allocate` returns normally (no `NoEligibleAgents` error exists
in the source), with every task mapped to the empty list. -/
theorem c3_assignments_total_and_empty_iff_no_agents (reg : Registry)
    (d : Decomposition) (cx : Complexity) (intent : Intent) :
    (∀ t ∈ d.tasks, ∃ e ∈ (allocate reg d cx intent).assignments, e.1 = t.id) ∧
    (∀ e ∈ (allocate reg d cx intent).assignments,
      (e.2 = [] ↔ (allocate reg d cx intent).agents = [])) := by
  constructor
  · intro t ht
    exact assignFold_covers _ d.tasks [] t ht
  · intro e he
    rcases assignFold_src _ d.tasks [] e he with h1 | h1
    · exact absurd h1 (List.not_mem_nil e)
    · obtain ⟨t, _, rfl⟩ := h1
      show (assignToTask t _).map (fun a => a.id) = [] ↔ _
      rw [List.map_eq_nil_iff, assignToTask_eq_nil_iff]
      exact Iff.rfl

unseal Rat.add Rat.mul Rat.inv Rat.sub in
/-- Witness for the amended C3 at the "deploy" scenario. -/
theorem c3_assignments_witness :
    ∃ e ∈ (allocate initialAgents
        (decompose "deploy" (classify "deploy".toList) (fun n => "t" ++ toString (n + 1)))
        (scoreComplexity
          (decompose "deploy" (classify "deploy".toList) (fun n => "t" ++ toString (n + 1))))
        (classify "deploy".toList)).assignments, e.1 = "t1" := by
  have h := (c3_assignments_total_and_empty_iff_no_agents initialAgents
    (decompose "deploy" (classify "deploy".toList) (fun n => "t" ++ toString (n + 1)))
    (scoreComplexity
      (decompose "deploy" (classify "deploy".toList) (fun n => "t" ++ toString (n + 1))))
    (classify "deploy".toList)).1
  have ht : ∃ t ∈ (decompose "deploy" (classify "deploy".toList)
      (fun n => "t" ++ toString (n + 1))).tasks, t.id = "t1" := by decide
  obtain ⟨t, htm, hid⟩ := ht
  obtain ⟨e, he, hk⟩ := h t htm
  exact ⟨e, he, by rw [hk, hid]⟩

unseal Rat.add Rat.mul Rat.inv Rat.sub in
/-- Witness for the amended C5 at a concrete secondary intent. -/
theorem c5_union_witness :
    registerAgent "researcher_v1" "research_analyst" "research"
        ["web-search", "documentation", "summarization", "comparison"]
        ["simple", "medium", "complex"] (85/100) 2 ∈
      secondaryPool initialAgents [{ type := "research", confidence := 1 }] "simple" :=
  (c5_secondary_pool_unions_by_intent_type initialAgents
      [{ type := "research", confidence := 1 }] "simple" _).mpr
    ⟨{ type := "research", confidence := 1 }, by decide, by decide⟩

unseal Rat.add Rat.mul Rat.inv Rat.sub in
/-- Witness for the amended C6 after one failed execution of researcher_v1. -/
theorem c6_bounds_witness :
    1/10 ≤ (updateAgentRecord (registerAgent "researcher_v1" "research_analyst" "research"
        ["web-search", "documentation", "summarization", "comparison"]
        ["simple", "medium", "complex"] (85/100) 2) 1 true).confidenceScore ∧
    (updateAgentRecord (registerAgent "researcher_v1" "research_analyst" "research"
        ["web-search", "documentation", "summarization", "comparison"]
        ["simple", "medium", "complex"] (85/100) 2) 1 true).confidenceScore ≤ 1 :=
  c6_confidence_always_bounded [RegistryOp.metrics "researcher_v1" 1 true] _ (by decide)

/-! ## Claim C4: the three-step scenario -/

/-- A deterministic id supply standing in for `randomUUID().slice(0, 8)`:
task i receives id `t(i+1)`. -/
def seqIds (n : Nat) : String := "t" ++ toString (n + 1)

/-- The scenario input of claim C4. -/
def c4Input : String := "research OAuth then build API then deploy to production"

unseal Rat.add Rat.mul Rat.inv Rat.sub in
/-- Counterexample to C4 as stated: the complexity score of the scenario is
exactly 7.0 (3 subtasks × dependency weight 5/3 × risk 1.4), and the level
threshold `score ≤ 7` classifies 7.0 as `medium`, not `complex`; accordingly
the strategy is `parallel_pool`, not `dag_staged_waves`.  (The IEEE-754
evaluation of the source also yields exactly 7.0: 3 × fl(5/3) rounds to 5.0
and 5 × fl(1.4) = 7 − 2⁻⁵¹ rounds half-to-even to 7.0.) -/
theorem c4_counterexample_level_is_medium :
    (scoreComplexity (decompose c4Input (classify c4Input.toList) seqIds)).score = 7 ∧
    (scoreComplexity (decompose c4Input (classify c4Input.toList) seqIds)).level = "medium" ∧
    getStrategy (scoreComplexity (decompose c4Input (classify c4Input.toList) seqIds)).level
      = "parallel_pool" := by
  refine ⟨by decide, by decide, by decide⟩

unseal Rat.add Rat.mul Rat.inv Rat.sub in
/-- Claim C4, amended: the scenario input produces exactly 3 tasks with
sequential dependencies (task 2 depends on task 1, task 3 on task 2), a wave
count of 3, a complexity record with level `medium` (score exactly 7.0), and
an allocation whose strategy is `parallel_pool`. -/
theorem c4_pipeline_three_sequential_tasks_medium :
    ((decompose c4Input (classify c4Input.toList) seqIds).tasks.map
        (fun t => (t.id, t.description, t.dependsOn)) =
      [("t1", "research OAuth", []), ("t2", "build API", ["t1"]),
       ("t3", "deploy to production", ["t2"])]) ∧
    (scoreComplexity (decompose c4Input (classify c4Input.toList) seqIds)).waves = 3 ∧
    (scoreComplexity (decompose c4Input (classify c4Input.toList) seqIds)).level = "medium" ∧
    (allocate initialAgents (decompose c4Input (classify c4Input.toList) seqIds)
        (scoreComplexity (decompose c4Input (classify c4Input.toList) seqIds))
        (classify c4Input.toList)).strategy = "parallel_pool" := by
  refine ⟨by decide, by decide, by decide, by decide⟩

/-! ## Claim C1: skip propagation after a failed wave -/

/-- A two-task chain: task `b` depends on task `a`. -/
def chainTasks : List Task :=
  [ { id := "a", index := 0, description := "first step", type := "code",
      cluster := "coding", dependsOn := [], status := "pending", priority := 1 },
    { id := "b", index := 1, description := "second step", type := "code",
      cluster := "coding", dependsOn := ["a"], status := "pending", priority := 1 } ]

def chainDecomposition : Decomposition :=
  { tasks := chainTasks, totalTasks := 2, hasParallelizable := false }

/-- A worker that fails exactly task `a`. -/
def failAWorker : Task → Except String String :=
  fun t => if t.id = "a" then .error "worker failure" else .ok ("done " ++ t.id)

/-- Claim C1 evaluated at its failing input (the claim is a code bug, not a
property of the code): in the DAG a ← b with `a` failing in wave 0, the
source never skips `b` — `computeWaves` left every node `scheduled`, so
`skipDependents` (which requires status `pending`, and walks only direct
dependents) changes nothing, and `execute` dispatches `b` anyway.  The run
produces no skipped TaskResult and no skipped node: `b` is dispatched,
completes, and reports a nonzero duration and an output. -/
theorem c1_failed_dependency_does_not_skip_dependents :
    ((executeDAG (buildDAG chainDecomposition) [("a", ["ag1"]), ("b", ["ag1"])]
        failAWorker (fun _ => 7)).1.results.map
        (fun r => (r.taskId, r.status, r.duration, r.output)) =
      [("a", "failed", 0, none), ("b", "completed", 7, some "done b")]) ∧
    ((executeDAG (buildDAG chainDecomposition) [("a", ["ag1"]), ("b", ["ag1"])]
        failAWorker (fun _ => 7)).2.map (fun n => (n.task.id, n.status)) =
      [("a", "failed"), ("b", "completed")]) := by
  refine ⟨by decide, by decide⟩

/-! ## Claim C10: empty input is not rejected -/

unseal Rat.add Rat.mul Rat.inv Rat.sub in
/-- Counterexample to C10 as stated: on the empty input the orchestrator does
not return the error form before stage 2 — `parseInput` performs no
validation, stage 2 runs (classifying the input as the general intent), and
`execute` returns the success form. -/
theorem c10_counterexample_empty_input_flows_through :
    (orchestratorExecute "" initialAgents seqIds (fun _ => .ok "out")
        (fun _ => 0)).errorMsg = none ∧
    (orchestratorExecute "" initialAgents seqIds (fun _ => .ok "out")
        (fun _ => 0)).pipeline.intent =
      some { type := "general", cluster := "research", priority := none,
             confidence := 3/10, matched := [], secondary := [] } := by
  refine ⟨rfl, by decide⟩

lemma toLower_eq_self_of_jsWs (c : Char) (h : jsWs c = true) : c.toLower = c := by
  unfold jsWs at h
  simp only [Bool.or_eq_true, Bool.and_eq_true, decide_eq_true_eq] at h
  unfold Char.toLower
  rw [if_neg]
  intro hc
  obtain ⟨h1, h2⟩ := hc
  omega

lemma mem_of_infixOfChars (needle : List Char) :
    ∀ (hay : List Char), infixOfChars needle hay = true → ∀ x ∈ needle, x ∈ hay := by
  intro hay
  induction hay with
  | nil =>
      intro h x hx
      unfold infixOfChars at h
      have hpre : needle <+: [] := List.isPrefixOf_iff_prefix.mp h
      rw [List.prefix_nil.mp hpre] at hx
      exact absurd hx (List.not_mem_nil x)
  | cons c cs ih =>
      intro h x hx
      unfold infixOfChars at h
      simp only [Bool.or_eq_true] at h
      rcases h with h1 | h1
      · exact (List.isPrefixOf_iff_prefix.mp h1).subset hx
      · exact List.mem_cons_of_mem c (ih h1 x hx)

lemma includes_eq_false_of_ws (hay : List Char) (hw : ∀ c ∈ hay, jsWs c = true)
    (needle : List Char) (hn : ∃ c ∈ needle, jsWs c = false) :
    includesChars hay needle = false := by
  cases hb : infixOfChars needle hay with
  | false => simpa [includesChars] using hb
  | true =>
      obtain ⟨c, hc, hcw⟩ := hn
      have hmem := mem_of_infixOfChars needle hay hb c hc
      rw [hw c hmem] at hcw
      cases hcw

/-- Every built-in intent keyword contains a non-whitespace character. -/
lemma intent_keywords_have_nonws :
    ∀ p ∈ intentPatterns, ∀ kw ∈ p.keywords, ∃ c ∈ kw.toList, jsWs c = false := by
  decide

/-- On whitespace-only input the classifier matches nothing and returns the
fixed general fallback. -/
lemma classify_ws_eq_general (cs : List Char) (h : ∀ c ∈ cs, jsWs c = true) :
    classify cs =
      { type := "general", cluster := "research", priority := none,
        confidence := 3/10, matched := [], secondary := [] } := by
  have hlower : ∀ c ∈ toLowerChars cs, jsWs c = true := by
    intro c hc
    obtain ⟨c0, hc0, rfl⟩ := List.mem_map.mp hc
    rw [toLower_eq_self_of_jsWs c0 (h c0 hc0)]
    exact h c0 hc0
  have hscores : classifyScores (toLowerChars cs) = [] := by
    apply List.filterMap_eq_nil_iff.mpr
    intro p hp
    have hfil : p.keywords.filter
        (fun kw => includesChars (toLowerChars cs) kw.toList) = [] := by
      apply List.filter_eq_nil_iff.mpr
      intro kw hkw
      simp only [Bool.not_eq_true]
      exact includes_eq_false_of_ws (toLowerChars cs) hlower kw.toList
        (intent_keywords_have_nonws p hp kw hkw)
    simp only [hfil, List.length_nil, gt_iff_lt, lt_self_iff_false, if_false]
  unfold classify
  rw [hscores]
  rfl

/-- Claim C10, amended: an empty or whitespace-only input is not rejected —
`parseInput` performs no validation, so the orchestrator proceeds into stage 2,
which classifies the input as the general intent, and `execute` returns the
success form (the error form is unreachable). -/
theorem c10_whitespace_input_reaches_stage_two (s : String) (reg : Registry)
    (idGen : Nat → String) (worker : Task → Except String String)
    (durFn : String → Nat) (h : ∀ c ∈ s.toList, jsWs c = true) :
    (orchestratorExecute s reg idGen worker durFn).errorMsg = none ∧
    (orchestratorExecute s reg idGen worker durFn).pipeline.intent =
      some { type := "general", cluster := "research", priority := none,
             confidence := 3/10, matched := [], secondary := [] } := by
  refine ⟨rfl, ?_⟩
  show some (classify s.toList) = _
  rw [classify_ws_eq_general s.toList h]

/-- Witness for the amended C10 at the one-space input. -/
theorem c10_whitespace_witness :
    (∀ c ∈ (" ").toList, jsWs c = true) ∧
    ((orchestratorExecute " " initialAgents seqIds (fun _ => .ok "out")
        (fun _ => 0)).errorMsg = none ∧
     (orchestratorExecute " " initialAgents seqIds (fun _ => .ok "out")
        (fun _ => 0)).pipeline.intent =
      some { type := "general", cluster := "research", priority := none,
             confidence := 3/10, matched := [], secondary := [] }) :=
  ⟨by decide,
   c10_whitespace_input_reaches_stage_two " " initialAgents seqIds
     (fun _ => .ok "out") (fun _ => 0) (by decide)⟩

/-! ## Claim C2: waves partition the node set and respect dependencies

The invariant proof works on `computeWavesAux`.  We first relate the node
list that `buildDAG` hands to the wave computation back to the task list. -/

lemma contains_iff_mem (l : List String) (x : String) : l.contains x = true ↔ x ∈ l :=
  List.elem_iff

lemma mem_foldl_addToSet (l : List String) :
    ∀ (acc : List String) (x : String),
      x ∈ l.foldl addToSet acc ↔ x ∈ acc ∨ x ∈ l := by
  induction l with
  | nil => intro acc x; simp
  | cons a as ih =>
      intro acc x
      rw [List.foldl_cons, ih]
      unfold addToSet
      by_cases h : acc.contains a
      · rw [if_pos h]
        have ha : a ∈ acc := (contains_iff_mem acc a).mp h
        simp only [List.mem_cons]
        constructor
        · rintro (hx | hx)
          · exact Or.inl hx
          · exact Or.inr (Or.inr hx)
        · rintro (hx | rfl | hx)
          · exact Or.inl hx
          · exact Or.inl ha
          · exact Or.inr hx
      · rw [if_neg h]
        simp only [List.mem_append, List.mem_singleton, List.mem_cons]
        tauto

/-- Projection whose preservation we track through the dependents pass:
task record, dependency set and status of every node, in order. -/
def nodeCore (n : DNode) : Task × List String × String :=
  (n.task, n.dependsOn, n.status)

/-- Projection preserved by the wave computation: id and dependency set. -/
def nodeIdDeps (n : DNode) : String × List String :=
  (n.task.id, n.dependsOn)

lemma map_nodeCore_map (ns : List DNode) (f : DNode → DNode)
    (hf : ∀ n, nodeCore (f n) = nodeCore n) :
    (ns.map f).map nodeCore = ns.map nodeCore := by
  rw [List.map_map]
  exact List.map_congr_left (fun n _ => hf n)

lemma addDependents_core (tasks : List Task) :
    ∀ (ns : List DNode), (addDependents tasks ns).map nodeCore = ns.map nodeCore := by
  have inner : ∀ (deps : List String) (tid : String) (ns : List DNode),
      ((deps.foldl (fun ns depId =>
        ns.map (fun m =>
          if m.task.id = depId then { m with dependents := addToSet m.dependents tid }
          else m)) ns)).map nodeCore = ns.map nodeCore := by
    intro deps tid
    induction deps with
    | nil => intro ns; rfl
    | cons d ds ih =>
        intro ns
        rw [List.foldl_cons, ih]
        apply map_nodeCore_map
        intro n
        by_cases h : n.task.id = d
        · rw [if_pos h]; rfl
        · rw [if_neg h]
  intro ns
  unfold addDependents
  induction tasks generalizing ns with
  | nil => rfl
  | cons t ts ih => rw [List.foldl_cons, ih, inner]

lemma nodesInsert_fresh (ns : List DNode) (n : DNode)
    (h : ∀ m ∈ ns, ¬ m.task.id = n.task.id) : nodesInsert ns n = ns ++ [n] := by
  unfold nodesInsert
  rw [if_neg]
  simp only [List.any_eq_true, decide_eq_true_eq, not_exists]
  intro m hm
  exact h m hm.1 hm.2

lemma buildNodes_eq_map (tasks : List Task) :
    ∀ (acc : List DNode),
      (tasks.map Task.id).Nodup →
      (∀ m ∈ acc, ∀ t ∈ tasks, ¬ m.task.id = t.id) →
      tasks.foldl (fun ns t => nodesInsert ns (mkNode t)) acc = acc ++ tasks.map mkNode := by
  induction tasks with
  | nil => intro acc _ _; simp
  | cons t ts ih =>
      intro acc hnodup hdisj
      rw [List.foldl_cons]
      rw [nodesInsert_fresh acc (mkNode t)
        (fun m hm => hdisj m hm t (List.mem_cons_self t ts))]
      rw [List.map_cons] at hnodup
      rw [ih (acc ++ [mkNode t]) (List.Nodup.of_cons hnodup) ?_]
      · simp
      · intro m hm t2 ht2
        rcases List.mem_append.mp hm with h1 | h1
        · exact hdisj m h1 t2 (List.mem_cons_of_mem t ht2)
        · rw [List.mem_singleton.mp h1]
          show ¬ t.id = t2.id
          intro he
          exact (List.nodup_cons.mp hnodup).1 (he ▸ List.mem_map_of_mem Task.id ht2)

lemma contains_eq_false_iff (l : List String) (x : String) :
    l.contains x = false ↔ x ∉ l := by
  rw [← contains_iff_mem l x]
  cases l.contains x <;> simp

lemma mem_waveFrontier_iff (ns : List DNode) (completed : List String) (n : DNode) :
    n ∈ waveFrontier ns completed ↔
      n ∈ ns ∧ n.task.id ∉ completed ∧ n.status = "pending" ∧
        ∀ d ∈ n.dependsOn, d ∈ completed := by
  unfold waveFrontier
  rw [List.mem_filter]
  simp only [Bool.and_eq_true, Bool.not_eq_true', decide_eq_true_eq, List.all_eq_true,
    contains_eq_false_iff, contains_iff_mem]
  tauto

lemma markScheduled_idDeps (wids : List String) (ns : List DNode) :
    (markScheduled wids ns).map nodeIdDeps = ns.map nodeIdDeps := by
  unfold markScheduled
  rw [List.map_map]
  apply List.map_congr_left
  intro n _
  by_cases h : wids.contains n.task.id
  · rw [Function.comp_apply, if_pos h]; rfl
  · rw [Function.comp_apply, if_neg h]

lemma map_taskId_of_idDeps (ns ms : List DNode)
    (h : ns.map nodeIdDeps = ms.map nodeIdDeps) :
    ns.map (fun n => n.task.id) = ms.map (fun n => n.task.id) := by
  have h2 := congrArg (List.map Prod.fst) h
  simpa [List.map_map, nodeIdDeps, Function.comp] using h2

lemma computeWavesAux_zero (ns : List DNode) (completed : List String) :
    computeWavesAux 0 ns completed = ([], ns) := rfl

lemma computeWavesAux_succ_done (fuel : Nat) (ns : List DNode) (completed : List String)
    (hge : ¬ completed.length < ns.length) :
    computeWavesAux (fuel + 1) ns completed = ([], ns) := by
  rw [computeWavesAux, if_neg hge]

lemma computeWavesAux_succ_stall (fuel : Nat) (ns : List DNode) (completed : List String)
    (hlt : completed.length < ns.length)
    (hw : (waveFrontier ns completed).length = 0) :
    computeWavesAux (fuel + 1) ns completed = ([], ns) := by
  rw [computeWavesAux, if_pos hlt, if_pos hw]

lemma computeWavesAux_succ_step (fuel : Nat) (ns : List DNode) (completed : List String)
    (hlt : completed.length < ns.length)
    (hw : ¬ (waveFrontier ns completed).length = 0) :
    computeWavesAux (fuel + 1) ns completed =
      ((waveFrontier ns completed).map (fun n => n.task.id) ::
        (computeWavesAux fuel
          (markScheduled ((waveFrontier ns completed).map (fun n => n.task.id)) ns)
          (completed ++ (waveFrontier ns completed).map (fun n => n.task.id))).1,
       (computeWavesAux fuel
          (markScheduled ((waveFrontier ns completed).map (fun n => n.task.id)) ns)
          (completed ++ (waveFrontier ns completed).map (fun n => n.task.id))).2) := by
  rw [computeWavesAux, if_pos hlt, if_neg hw]

lemma computeWavesAux_idDeps (fuel : Nat) :
    ∀ (ns : List DNode) (completed : List String),
      (computeWavesAux fuel ns completed).2.map nodeIdDeps = ns.map nodeIdDeps := by
  induction fuel with
  | zero => intro ns completed; rfl
  | succ fuel ih =>
      intro ns completed
      by_cases hlt : completed.length < ns.length
      · by_cases hw : (waveFrontier ns completed).length = 0
        · rw [computeWavesAux_succ_stall fuel ns completed hlt hw]
        · rw [computeWavesAux_succ_step fuel ns completed hlt hw]
          dsimp only
          rw [ih, markScheduled_idDeps]
      · rw [computeWavesAux_succ_done fuel ns completed hlt]

lemma markScheduled_get (wids : List String) (ns : List DNode) (i : Nat)
    (hi : i < ns.length) (hi1 : i < (markScheduled wids ns).length) :
    ((markScheduled wids ns).get ⟨i, hi1⟩).task = (ns.get ⟨i, hi⟩).task ∧
    ((markScheduled wids ns).get ⟨i, hi1⟩).dependsOn = (ns.get ⟨i, hi⟩).dependsOn := by
  unfold markScheduled at hi1 ⊢
  rw [List.get_map]
  by_cases h : wids.contains (ns.get ⟨i, List.length_map ns _ ▸ hi1⟩).task.id
  · rw [if_pos h]
    exact ⟨rfl, rfl⟩
  · rw [if_neg h]
    exact ⟨rfl, rfl⟩

lemma computeWavesAux_spec (fuel : Nat) :
    ∀ (ns : List DNode) (completed : List String),
      (ns.map (fun n => n.task.id)).Nodup →
      completed.Nodup →
      (∀ c ∈ completed, c ∈ ns.map (fun n => n.task.id)) →
      (∀ n ∈ ns, n.status = "pending" ↔ n.task.id ∉ completed) →
      (∀ (i : Nat) (hi : i < ns.length), ∀ d ∈ (ns.get ⟨i, hi⟩).dependsOn,
        ∃ (j : Nat) (hj : j < i), (ns.get ⟨j, Nat.lt_trans hj hi⟩).task.id = d) →
      ns.length - completed.length ≤ fuel →
      (((computeWavesAux fuel ns completed).1.flatten ++ completed).Perm
          (ns.map (fun n => n.task.id))) ∧
      (∀ (k : Nat) (nid : String),
        nid ∈ ((computeWavesAux fuel ns completed).1.getD k []) →
        ∀ (i : Nat) (hi : i < ns.length), (ns.get ⟨i, hi⟩).task.id = nid →
        ∀ d ∈ (ns.get ⟨i, hi⟩).dependsOn,
          d ∈ completed ∨ ∃ j, j < k ∧ d ∈ ((computeWavesAux fuel ns completed).1.getD j [])) := by
  induction fuel with
  | zero =>
      intro ns completed hnodup hcnodup hcsub hstat hdeps hfuel
      rw [computeWavesAux_zero]
      constructor
      · show (([] : List (List String)).flatten ++ completed).Perm _
        rw [List.flatten_nil, List.nil_append]
        refine (List.subperm_of_subset hcnodup hcsub).perm_of_length_le ?_
        rw [List.length_map]
        omega
      · intro k nid hmem
        show ∀ _, _
        exact absurd (by simpa using hmem) (List.not_mem_nil nid)
  | succ fuel ih =>
      intro ns completed hnodup hcnodup hcsub hstat hdeps hfuel
      by_cases hlt : completed.length < ns.length
      · -- the frontier round: first show it is nonempty
        haveI hdecP : DecidablePred
            (fun i => ∃ hi : i < ns.length, (ns.get ⟨i, hi⟩).task.id ∉ completed) :=
          fun _ => exists_prop_decidable _
        have hex : ∃ i, ∃ hi : i < ns.length, (ns.get ⟨i, hi⟩).task.id ∉ completed := by
          by_contra hno
          push_neg at hno
          have hsub2 : (ns.map (fun n => n.task.id)) ⊆ completed := by
            intro x hx
            obtain ⟨n, hn, rfl⟩ := List.mem_map.mp hx
            obtain ⟨⟨i, hi⟩, hget⟩ := List.mem_iff_get.mp hn
            have hin := hno i hi
            rw [hget] at hin
            exact hin
          have hsp := (List.subperm_of_subset hnodup hsub2).length_le
          rw [List.length_map] at hsp
          omega
        have hi0 : ∃ hi : Nat.find hex < ns.length,
            (ns.get ⟨Nat.find hex, hi⟩).task.id ∉ completed := Nat.find_spec hex
        obtain ⟨hi0len, hni0⟩ := hi0
        have hmin : ∀ j, j < Nat.find hex → ∀ hj : j < ns.length,
            (ns.get ⟨j, hj⟩).task.id ∈ completed := by
          intro j hj hjlen
          have hnj := Nat.find_min hex hj
          push_neg at hnj
          exact hnj hjlen
        have hfmem : ns.get ⟨Nat.find hex, hi0len⟩ ∈ waveFrontier ns completed := by
          rw [mem_waveFrontier_iff]
          refine ⟨ns.get_mem _ _, hni0, ?_, ?_⟩
          · exact (hstat _ (ns.get_mem _ _)).mpr hni0
          · intro d hd
            obtain ⟨j, hj, hjid⟩ := hdeps (Nat.find hex) hi0len d hd
            have hjin := hmin j hj (Nat.lt_trans hj hi0len)
            rw [hjid] at hjin
            exact hjin
        have hwne : ¬ (waveFrontier ns completed).length = 0 := by
          intro h0
          rw [List.length_eq_zero] at h0
          rw [h0] at hfmem
          exact List.not_mem_nil _ hfmem
        rw [computeWavesAux_succ_step fuel ns completed hlt hwne]
        have hwmem : ∀ w ∈ waveFrontier ns completed,
            w ∈ ns ∧ w.task.id ∉ completed ∧ w.status = "pending" ∧
              ∀ d ∈ w.dependsOn, d ∈ completed :=
          fun w hw => (mem_waveFrontier_iff ns completed w).mp hw
        have hwsub : (waveFrontier ns completed).Sublist ns := List.filter_sublist ns
        have hwidsnodup : ((waveFrontier ns completed).map (fun n => n.task.id)).Nodup :=
          List.Nodup.sublist (hwsub.map _) hnodup
        have hwidsdisj : ∀ x ∈ (waveFrontier ns completed).map (fun n => n.task.id),
            x ∉ completed := by
          intro x hx
          obtain ⟨w, hw, rfl⟩ := List.mem_map.mp hx
          exact (hwmem w hw).2.1
        have hwidssub : ∀ x ∈ (waveFrontier ns completed).map (fun n => n.task.id),
            x ∈ ns.map (fun n => n.task.id) := by
          intro x hx
          obtain ⟨w, hw, rfl⟩ := List.mem_map.mp hx
          exact List.mem_map_of_mem _ (hwmem w hw).1
        have hids1 : (markScheduled ((waveFrontier ns completed).map (fun n => n.task.id))
            ns).map (fun n => n.task.id) = ns.map (fun n => n.task.id) :=
          map_taskId_of_idDeps _ _ (markScheduled_idDeps _ ns)
        have hlen1 : (markScheduled ((waveFrontier ns completed).map (fun n => n.task.id))
            ns).length = ns.length := by
          have h2 := congrArg List.length hids1
          simpa using h2
        have hnodup1 : ((markScheduled ((waveFrontier ns completed).map
            (fun n => n.task.id)) ns).map (fun n => n.task.id)).Nodup := by
          rw [hids1]
          exact hnodup
        have hcnodup1 : (completed ++
            (waveFrontier ns completed).map (fun n => n.task.id)).Nodup := by
          rw [List.nodup_append]
          exact ⟨hcnodup, hwidsnodup, fun x hx hx2 => hwidsdisj x hx2 hx⟩
        have hcsub1 : ∀ c ∈ completed ++
            (waveFrontier ns completed).map (fun n => n.task.id),
            c ∈ (markScheduled ((waveFrontier ns completed).map (fun n => n.task.id))
              ns).map (fun n => n.task.id) := by
          rw [hids1]
          intro c hc
          rcases List.mem_append.mp hc with h1 | h1
          · exact hcsub c h1
          · exact hwidssub c h1
        have hstat1 : ∀ n1 ∈ markScheduled ((waveFrontier ns completed).map
            (fun n => n.task.id)) ns,
            n1.status = "pending" ↔
            n1.task.id ∉ completed ++ (waveFrontier ns completed).map (fun n => n.task.id) := by
          intro n1 hn1
          unfold markScheduled at hn1
          obtain ⟨n, hn, rfl⟩ := List.mem_map.mp hn1
          by_cases h : ((waveFrontier ns completed).map (fun n => n.task.id)).contains n.task.id
          · rw [if_pos h]
            constructor
            · intro hp
              simp at hp
            · intro hnotin
              exact absurd (List.mem_append_right completed
                ((contains_iff_mem _ _).mp h)) hnotin
          · rw [if_neg h]
            have hnm : n.task.id ∉ (waveFrontier ns completed).map (fun n => n.task.id) :=
              fun hm => h ((contains_iff_mem _ _).mpr hm)
            rw [hstat n hn]
            constructor
            · intro hni hc1
              rcases List.mem_append.mp hc1 with h1 | h1
              · exact hni h1
              · exact hnm h1
            · intro hni1 hc
              exact hni1 (List.mem_append_left _ hc)
        have hdeps1 : ∀ (i : Nat) (hi : i < (markScheduled ((waveFrontier ns
            completed).map (fun n => n.task.id)) ns).length),
            ∀ d ∈ ((markScheduled ((waveFrontier ns completed).map (fun n => n.task.id))
              ns).get ⟨i, hi⟩).dependsOn,
            ∃ (j : Nat) (hj : j < i),
              ((markScheduled ((waveFrontier ns completed).map (fun n => n.task.id))
                ns).get ⟨j, Nat.lt_trans hj hi⟩).task.id = d := by
          intro i hi1 d hd
          have hi : i < ns.length := by rw [← hlen1]; exact hi1
          obtain ⟨_, hdeq⟩ := markScheduled_get _ ns i hi hi1
          rw [hdeq] at hd
          obtain ⟨j, hj, hjid⟩ := hdeps i hi d hd
          refine ⟨j, hj, ?_⟩
          obtain ⟨hteq, _⟩ := markScheduled_get
            ((waveFrontier ns completed).map (fun n => n.task.id)) ns j
            (Nat.lt_trans hj hi) (Nat.lt_trans hj hi1)
          rw [hteq]
          exact hjid
        have hfuel1 : (markScheduled ((waveFrontier ns completed).map
            (fun n => n.task.id)) ns).length -
            (completed ++ (waveFrontier ns completed).map (fun n => n.task.id)).length
            ≤ fuel := by
          rw [hlen1, List.length_append, List.length_map]
          omega
        obtain ⟨ha, hb⟩ := ih _ _ hnodup1 hcnodup1 hcsub1 hstat1 hdeps1 hfuel1
        constructor
        · show ((((waveFrontier ns completed).map (fun n => n.task.id)) ::
              (computeWavesAux fuel _ _).1).flatten ++ completed).Perm _
          rw [List.flatten_cons]
          have ha2 : ((computeWavesAux fuel
              (markScheduled ((waveFrontier ns completed).map (fun n => n.task.id)) ns)
              (completed ++ (waveFrontier ns completed).map (fun n => n.task.id))).1.flatten
              ++ (completed ++ (waveFrontier ns completed).map (fun n => n.task.id))).Perm
              (ns.map (fun n => n.task.id)) := by
            refine ha.trans ?_
            rw [hids1]
          refine List.Perm.trans ?_ ha2
          rw [List.append_assoc]
          refine List.Perm.trans List.perm_append_comm ?_
          rw [List.append_assoc]
        · intro k nid hmem i hi hid d hd
          cases k with
          | zero =>
              rw [List.getD_cons_zero] at hmem
              obtain ⟨w, hw, hwid⟩ := List.mem_map.mp hmem
              have hweq : w = ns.get ⟨i, hi⟩ :=
                List.inj_on_of_nodup_map hnodup (hwmem w hw).1 (ns.get_mem _ _)
                  (by rw [hwid, hid])
              rw [← hweq] at hd
              exact Or.inl ((hwmem w hw).2.2.2 d hd)
          | succ k0 =>
              rw [List.getD_cons_succ] at hmem
              have hi1 : i < (markScheduled ((waveFrontier ns completed).map
                  (fun n => n.task.id)) ns).length := by
                rw [hlen1]
                exact hi
              obtain ⟨hteq, hdeq⟩ := markScheduled_get
                ((waveFrontier ns completed).map (fun n => n.task.id)) ns i hi hi1
              rcases hb k0 nid hmem i hi1 (by rw [hteq]; exact hid) d
                  (by rw [hdeq]; exact hd) with h1 | ⟨j, hj, hdj⟩
              · rcases List.mem_append.mp h1 with h2 | h2
                · exact Or.inl h2
                · refine Or.inr ⟨0, Nat.succ_pos k0, ?_⟩
                  rw [List.getD_cons_zero]
                  exact h2
              · refine Or.inr ⟨j + 1, Nat.succ_lt_succ hj, ?_⟩
                rw [List.getD_cons_succ]
                exact hdj
      · -- no nodes remain: the loop exits immediately
        rw [computeWavesAux_succ_done fuel ns completed hlt]
        constructor
        · show (([] : List (List String)).flatten ++ completed).Perm _
          rw [List.flatten_nil, List.nil_append]
          refine (List.subperm_of_subset hcnodup hcsub).perm_of_length_le ?_
          rw [List.length_map]
          omega
        · intro k nid hmem
          show ∀ _, _
          exact absurd (by simpa using hmem) (List.not_mem_nil nid)

lemma map_get_eq {γ : Type} (f : DNode → γ) (ns ms : List DNode)
    (h : ns.map f = ms.map f) (i : Nat) (hi : i < ns.length) (hi2 : i < ms.length) :
    f (ns.get ⟨i, hi⟩) = f (ms.get ⟨i, hi2⟩) := by
  have h1 := congrArg (fun l => l.get? i) h
  simp only [List.get?_map] at h1
  rw [List.get?_eq_get hi, List.get?_eq_get hi2] at h1
  simpa using h1

/-- Claim C2.  For every decomposition whose task ids are distinct and whose
`dependsOn` entries refer to strictly earlier tasks (the decomposer's
invariant, "acyclic by construction"), the DAG builder's wave computation
partitions the node set — the flattened waves are a permutation of the node
ids, so their flattened size equals the node count and every node appears in
exactly one wave — and every dependency of a node of wave k lies in a wave
with index strictly less than k. -/
theorem c2_waves_partition_and_respect_dependencies
    (tasks : List Task) (total : Nat) (hpar : Bool)
    (hnodup : (tasks.map Task.id).Nodup)
    (hdeps : ∀ (i : Nat) (hi : i < tasks.length), ∀ d ∈ (tasks.get ⟨i, hi⟩).dependsOn,
      ∃ (j : Nat) (hj : j < i), (tasks.get ⟨j, Nat.lt_trans hj hi⟩).id = d) :
    ((buildDAG ⟨tasks, total, hpar⟩).waves.flatten.Perm
        ((buildDAG ⟨tasks, total, hpar⟩).nodes.map (fun n => n.task.id))) ∧
    (∀ (k : Nat) (nid : String),
      nid ∈ (buildDAG ⟨tasks, total, hpar⟩).waves.getD k [] →
      ∀ n ∈ (buildDAG ⟨tasks, total, hpar⟩).nodes, n.task.id = nid →
      ∀ d ∈ n.dependsOn,
        ∃ j, j < k ∧ d ∈ (buildDAG ⟨tasks, total, hpar⟩).waves.getD j []) := by
  have hnodes0 : tasks.foldl (fun ns t => nodesInsert ns (mkNode t)) [] = tasks.map mkNode :=
    buildNodes_eq_map tasks [] hnodup (fun m hm => absurd hm (List.not_mem_nil m))
  set nodes1 := addDependents tasks
    (tasks.foldl (fun ns t => nodesInsert ns (mkNode t)) []) with hn1def
  have hbd : buildDAG ⟨tasks, total, hpar⟩ =
      { nodes := (computeWavesAux nodes1.length nodes1 []).2,
        waves := (computeWavesAux nodes1.length nodes1 []).1 } := rfl
  have hcore : nodes1.map nodeCore = (tasks.map mkNode).map nodeCore := by
    rw [hn1def, hnodes0]
    exact addDependents_core tasks _
  have hids : nodes1.map (fun n => n.task.id) = tasks.map Task.id := by
    have h1 := congrArg (List.map (fun c : Task × List String × String => c.1.id)) hcore
    simp only [List.map_map] at h1
    exact h1
  have hlen : nodes1.length = tasks.length := by
    simpa using congrArg List.length hids
  have hnodup1 : (nodes1.map (fun n => n.task.id)).Nodup := by
    rw [hids]
    exact hnodup
  have hstat1 : ∀ n ∈ nodes1, n.status = "pending" ↔ n.task.id ∉ ([] : List String) := by
    intro n hn
    have hmem := List.mem_map_of_mem nodeCore hn
    rw [hcore] at hmem
    obtain ⟨n0, hn0, heq⟩ := List.mem_map.mp hmem
    obtain ⟨t, _, rfl⟩ := List.mem_map.mp hn0
    have hst := congrArg (fun c : Task × List String × String => c.2.2) heq
    have hpend : n.status = "pending" := by
      simpa [nodeCore, mkNode] using hst.symm
    simp [hpend]
  have hdeps1 : ∀ (i : Nat) (hi : i < nodes1.length),
      ∀ d ∈ (nodes1.get ⟨i, hi⟩).dependsOn,
      ∃ (j : Nat) (hj : j < i), (nodes1.get ⟨j, Nat.lt_trans hj hi⟩).task.id = d := by
    intro i hi1 d hd
    have hi : i < tasks.length := by rw [← hlen]; exact hi1
    have hg := map_get_eq nodeCore nodes1 (tasks.map mkNode) hcore i hi1
      (by simpa using hi)
    rw [List.get_map] at hg
    have hdg := congrArg (fun c : Task × List String × String => c.2.1) hg
    simp only [nodeCore, mkNode] at hdg
    rw [hdg] at hd
    rw [mem_foldl_addToSet] at hd
    rcases hd with hd | hd
    · exact absurd hd (List.not_mem_nil d)
    · obtain ⟨j, hj, hjid⟩ := hdeps i hi d hd
      refine ⟨j, hj, ?_⟩
      have hgj := map_get_eq nodeCore nodes1 (tasks.map mkNode) hcore j
        (Nat.lt_trans hj hi1) (by simpa using Nat.lt_trans hj hi)
      rw [List.get_map] at hgj
      have hidg := congrArg (fun c : Task × List String × String => c.1.id) hgj
      simp only [nodeCore, mkNode] at hidg
      rw [hidg]
      exact hjid
  obtain ⟨ha, hb⟩ := computeWavesAux_spec nodes1.length nodes1 []
    hnodup1 List.nodup_nil (by simp) hstat1 hdeps1 (by simp)
  have hout : (computeWavesAux nodes1.length nodes1 []).2.map (fun n => n.task.id) =
      nodes1.map (fun n => n.task.id) :=
    map_taskId_of_idDeps _ _ (computeWavesAux_idDeps nodes1.length nodes1 [])
  constructor
  · rw [hbd]
    show (computeWavesAux nodes1.length nodes1 []).1.flatten.Perm _
    rw [hout]
    simpa using ha
  · rw [hbd]
    intro k nid hmem n hn hid d hd
    obtain ⟨⟨i, hi2⟩, hget⟩ := List.mem_iff_get.mp hn
    have hlen2 : (computeWavesAux nodes1.length nodes1 []).2.length = nodes1.length := by
      simpa using congrArg List.length hout
    have hi1 : i < nodes1.length := by rw [← hlen2]; exact hi2
    have hidp := map_get_eq nodeIdDeps (computeWavesAux nodes1.length nodes1 []).2 nodes1
      (computeWavesAux_idDeps nodes1.length nodes1 []) i hi2 hi1
    rw [hget] at hidp
    have hid1 : (nodes1.get ⟨i, hi1⟩).task.id = nid := by
      have h2 := congrArg Prod.fst hidp
      simp only [nodeIdDeps] at h2
      rw [← h2]
      exact hid
    have hd1 : d ∈ (nodes1.get ⟨i, hi1⟩).dependsOn := by
      have h2 := congrArg (fun c : String × List String => c.2) hidp
      simp only [nodeIdDeps] at h2
      rw [← h2]
      exact hd
    rcases hb k nid hmem i hi1 hid1 d hd1 with h1 | h2
    · exact absurd h1 (List.not_mem_nil d)
    · exact h2

lemma chainTasks_deps_earlier :
    ∀ (i : Nat) (hi : i < chainTasks.length),
      ∀ d ∈ (chainTasks.get ⟨i, hi⟩).dependsOn,
      ∃ (j : Nat) (hj : j < i), (chainTasks.get ⟨j, Nat.lt_trans hj hi⟩).id = d := by
  intro i hi d hd
  have hi2 : i < 2 := by simpa [chainTasks] using hi
  interval_cases i
  · exact absurd hd (List.not_mem_nil d)
  · have hd2 : d ∈ ["a"] := hd
    rw [List.mem_singleton.mp hd2]
    exact ⟨0, Nat.zero_lt_one, rfl⟩

/-- Witness for C2 at the concrete two-task chain. -/
theorem c2_waves_witness :
    ((chainTasks.map Task.id).Nodup ∧
      (∀ (i : Nat) (hi : i < chainTasks.length),
        ∀ d ∈ (chainTasks.get ⟨i, hi⟩).dependsOn,
        ∃ (j : Nat) (hj : j < i), (chainTasks.get ⟨j, Nat.lt_trans hj hi⟩).id = d)) ∧
    (((buildDAG ⟨chainTasks, 2, false⟩).waves.flatten.Perm
        ((buildDAG ⟨chainTasks, 2, false⟩).nodes.map (fun n => n.task.id))) ∧
     (∀ (k : Nat) (nid : String),
        nid ∈ (buildDAG ⟨chainTasks, 2, false⟩).waves.getD k [] →
        ∀ n ∈ (buildDAG ⟨chainTasks, 2, false⟩).nodes, n.task.id = nid →
        ∀ d ∈ n.dependsOn,
          ∃ j, j < k ∧ d ∈ (buildDAG ⟨chainTasks, 2, false⟩).waves.getD j [])) :=
  ⟨⟨by decide, chainTasks_deps_earlier⟩,
   c2_waves_partition_and_respect_dependencies chainTasks 2 false (by decide)
     chainTasks_deps_earlier⟩

end APES





